import Mathlib

/-!
# Asynchronous log system: buffer, worker and logger

A shallow embedding of `log_system/logs_code/AsyncBuffer.hpp`,
`AsyncWorker.hpp`, `AsyncLogger.hpp`, `ThreadPoll.hpp`, `Manager.hpp` and the
rolling file sink of `LogFlush.hpp`.

Conventions of the embedding.

* `std::vector<char> buffer_` is a `List Byte`; its `size()` is the length of
  the list.  `size_t` values are natural numbers: the embedding covers
  storages below 2 GiB, where `int buffersize = buffer_.size()` holds the size
  exactly and no `size_t` sum wraps.  The unsigned differences of
  `WriteableSize` and `ReadableSize` are truncated differences; they agree
  with the machine value whenever `read_pos_ ≤ write_pos_ ≤ size()`.
* `g_conf_data` (declared in `Util.hpp`) is read through its three fields
  `buffer_size`, `threshold` and `linear_growth`, collected in `JsonData`.
* The threads of `AsyncWorker` are interleaved sequentially: every block run
  under `mtx_` is one atomic step, and a blocked `wait` is a step that is not
  enabled.
* `std::unordered_map` is the list of its entries, searched by key.  Files are
  what one `RollFileFlush` object writes to them; `fopen` and `fwrite` succeed.
-/

namespace mylog

/-- One `char` of a log record. -/
abbrev Byte := Nat

/-- Fields of `g_conf_data` read by the buffer. -/
structure JsonData where
  buffer_size : Nat
  threshold : Nat
  linear_growth : Nat
  deriving Repr, DecidableEq

/-- State of `class Buffer`. -/
structure Buffer where
  buffer_ : List Byte
  write_pos_ : Nat
  read_pos_ : Nat
  deriving Repr, DecidableEq

namespace Buffer

/-- Constructor `Buffer()`: cursors at 0, storage of `buffer_size` zero bytes. -/
def init (conf : JsonData) : Buffer :=
  { buffer_ := List.replicate conf.buffer_size 0, write_pos_ := 0, read_pos_ := 0 }

/-- Effect of `std::vector<char>::resize(n)`: truncate, or pad with zero bytes. -/
def resize (v : List Byte) (n : Nat) : List Byte :=
  if n ≤ v.length then v.take n else v ++ List.replicate (n - v.length) 0

/-- Effect of `std::copy(data, data + len, &buffer_[pos])` on the cells of the
vector: the byte `data[i]` lands in cell `pos + i`, and the vector keeps its
size.  A copy that reaches beyond the end of the vector is undefined behaviour
in the code; this function then gives the cells inside the vector only, and
`PushChecked` is the `Push` that makes the overrun visible. -/
def copyInto : List Byte → List Byte → Nat → List Byte
  | [], v, _ => v
  | b :: bs, v, pos => copyInto bs (v.set pos b) (pos + 1)

/-- Method `WriteableSize()`. -/
def WriteableSize (b : Buffer) : Nat := b.buffer_.length - b.write_pos_

/-- Method `ReadableSize()`. -/
def ReadableSize (b : Buffer) : Nat := b.write_pos_ - b.read_pos_

/-- Method `IsEmpty()`. -/
def IsEmpty (b : Buffer) : Bool := b.write_pos_ == b.read_pos_

/-- Method `ToBeEnough(len)`.  Exact for `write_pos_ ≤ size()`; past that the
unsigned `WriteableSize()` of the code wraps, which the truncated difference
does not follow. -/
def ToBeEnough (conf : JsonData) (b : Buffer) (len : Nat) : Buffer :=
  let buffersize := b.buffer_.length
  if len ≥ b.WriteableSize then
    if b.buffer_.length < conf.threshold then
      { b with buffer_ := resize b.buffer_ (2 * b.buffer_.length + buffersize) }
    else
      { b with buffer_ := resize b.buffer_ (conf.linear_growth + buffersize) }
  else b

/-- Method `Push(data, len)`, with `len = data.length`. -/
def Push (conf : JsonData) (b : Buffer) (data : List Byte) : Buffer :=
  let b1 := ToBeEnough conf b data.length
  { b1 with
    buffer_ := copyInto data b1.buffer_ b1.write_pos_
    write_pos_ := b1.write_pos_ + data.length }

/-- Whether `std::copy` in `Push(data, len)` stays inside the storage that
`ToBeEnough(len)` leaves. -/
def pushInBounds (conf : JsonData) (b : Buffer) (len : Nat) : Bool :=
  decide (b.write_pos_ + len ≤ (ToBeEnough conf b len).buffer_.length)

/-- Method `Push(data, len)` with the overrun made visible: `none` where
`std::copy` writes past the end of the vector, which is undefined behaviour,
and what `Push` leaves otherwise. -/
def PushChecked (conf : JsonData) (b : Buffer) (data : List Byte) : Option Buffer :=
  if pushInBounds conf b data.length then some (b.Push conf data) else none

/-- The byte range `[Begin(), Begin() + ReadableSize())`, what a reader of the
buffer is given. -/
def readable (b : Buffer) : List Byte :=
  (b.buffer_.drop b.read_pos_).take b.ReadableSize

/-- Method `Swap(buf)`: the storages and both cursors are exchanged member by
member.  Returns the new `*this` and the new `buf`. -/
def Swap (b buf : Buffer) : Buffer × Buffer :=
  ({ buffer_ := buf.buffer_, write_pos_ := buf.write_pos_, read_pos_ := buf.read_pos_ },
   { buffer_ := b.buffer_, write_pos_ := b.write_pos_, read_pos_ := b.read_pos_ })

/-- Method `MoveWritePos(len)`; the failed `assert` is `none`. -/
def MoveWritePos (b : Buffer) (len : Nat) : Option Buffer :=
  if len ≤ b.WriteableSize then some { b with write_pos_ := b.write_pos_ + len } else none

/-- Method `MoveReadPos(len)`; the failed `assert` is `none`. -/
def MoveReadPos (b : Buffer) (len : Nat) : Option Buffer :=
  if len ≤ b.ReadableSize then some { b with read_pos_ := b.read_pos_ + len } else none

/-- Method `Reset()`. -/
def Reset (b : Buffer) : Buffer := { b with write_pos_ := 0, read_pos_ := 0 }

/-- Cursor invariant `0 ≤ read_pos_ ≤ write_pos_ ≤ size()`. -/
def Inv (b : Buffer) : Prop :=
  b.read_pos_ ≤ b.write_pos_ ∧ b.write_pos_ ≤ b.buffer_.length

instance (b : Buffer) : Decidable b.Inv := by unfold Inv; infer_instance

end Buffer

/-- Values of `enum class AsyncType`. -/
inductive AsyncType where
  | ASYNC_SAFE
  | ASYNC_UNSAFE
  deriving Repr, DecidableEq

/-- Exceptions of the C++ standard library that the embedded code throws or
catches.  `std::system_error` derives from `std::runtime_error`; `other` stands
for every exception class outside that hierarchy. -/
inductive StdException where
  | runtime_error (what : String)
  | system_error (what : String)
  | other (what : String)
  deriving Repr, DecidableEq

/-- Whether a handler `catch (const std::runtime_error &)` catches the exception. -/
def StdException.isRuntimeError : StdException → Bool
  | .runtime_error _ => true
  | .system_error _ => true
  | .other _ => false

/-- Position of the background thread inside `AsyncWorker::ThreadEntry`. -/
inductive LoopPc where
  /-- At the top of the `while (1)` body, before `mtx_` is taken. -/
  | atLock
  /-- After the locked block, before `callback_(buffer_consumer_)`. -/
  | atCallback
  /-- Before `buffer_consumer_.Reset()`. -/
  | atReset
  /-- Before `if (stop_ && buffer_productor_.IsEmpty()) return;`. -/
  | atCheck
  /-- After `return`: the thread has finished. -/
  | exited
  deriving Repr, DecidableEq

/-- State of `class AsyncWorker`, its background thread included: `pc` is where
the thread stands, `thread_joinable` is `thread_.joinable()`, and `flushed` lists
the readable ranges that `callback_` has been called with, oldest first. -/
structure AsyncWorker where
  async_type_ : AsyncType
  stop_ : Bool
  buffer_productor_ : Buffer
  buffer_consumer_ : Buffer
  thread_joinable : Bool
  pc : LoopPc
  flushed : List (List Byte)
  deriving Repr, DecidableEq

namespace AsyncWorker

/-- Constructor `AsyncWorker(cb, async_type)`: both buffers fresh, `stop_` false,
the thread started at the top of `ThreadEntry`. -/
def init (conf : JsonData) (async_type : AsyncType) : AsyncWorker :=
  { async_type_ := async_type
    stop_ := false
    buffer_productor_ := Buffer.init conf
    buffer_consumer_ := Buffer.init conf
    thread_joinable := true
    pc := LoopPc.atLock
    flushed := [] }

/-- The predicate of `cond_productor_.wait` in `Push`:
`len <= buffer_productor_.WriteableSize()`. -/
def pushWaitCond (w : AsyncWorker) (len : Nat) : Bool :=
  decide (len ≤ w.buffer_productor_.WriteableSize)

/-- Method `Push(data, len)` as one atomic step under `mtx_`.  `none`: the caller
is blocked in `cond_productor_.wait` and nothing is written. -/
def Push (conf : JsonData) (w : AsyncWorker) (data : List Byte) : Option AsyncWorker :=
  if w.async_type_ = AsyncType.ASYNC_SAFE ∧ w.pushWaitCond data.length = false then none
  else some { w with buffer_productor_ := w.buffer_productor_.Push conf data }

/-- Whether the background thread is blocked in `cond_consumer_.wait`: the guard
`buffer_productor_.IsEmpty() && stop_` holds and the wait predicate
`stop_ || !buffer_productor_.IsEmpty()` does not. -/
def loopWaits (w : AsyncWorker) : Bool :=
  (w.buffer_productor_.IsEmpty && w.stop_) && !(w.stop_ || !w.buffer_productor_.IsEmpty)

/-- One step of `ThreadEntry`.  The locked block (wait, `Swap`, notify) is one
step; the callback, `Reset` and the exit test run outside the lock and are a
step each.  `none`: the thread is blocked in its wait, or has returned. -/
def ThreadEntry (w : AsyncWorker) : Option AsyncWorker :=
  match w.pc with
  | LoopPc.atLock =>
    if w.loopWaits then none
    else
      let r := w.buffer_productor_.Swap w.buffer_consumer_
      some { w with buffer_productor_ := r.1, buffer_consumer_ := r.2, pc := LoopPc.atCallback }
  | LoopPc.atCallback =>
    some { w with flushed := w.flushed ++ [w.buffer_consumer_.readable], pc := LoopPc.atReset }
  | LoopPc.atReset =>
    some { w with buffer_consumer_ := w.buffer_consumer_.Reset, pc := LoopPc.atCheck }
  | LoopPc.atCheck =>
    if w.stop_ && w.buffer_productor_.IsEmpty then some { w with pc := LoopPc.exited }
    else some { w with pc := LoopPc.atLock }
  | LoopPc.exited => none

/-- First statement of `Stop()`: `stop_ = true`. -/
def requestStop (w : AsyncWorker) : AsyncWorker := { w with stop_ := true }

/-- The background thread running on its own for at most `fuel` steps, until it
blocks or returns. -/
def runThreadEntry : Nat → AsyncWorker → AsyncWorker
  | 0, w => w
  | fuel + 1, w =>
    match w.ThreadEntry with
    | some w1 => runThreadEntry fuel w1
    | none => w

/-- A number of steps within which `ThreadEntry` returns once `stop_` is set and
no `Push` arrives: three passes through the four steps of the loop body. -/
def joinFuel : Nat := 12

/-- Method `Stop()`: sets `stop_`, notifies, then `thread_.join()`.  `join` on a
thread that is not joinable throws `std::system_error`; otherwise it returns
when `ThreadEntry` has returned, and the thread is no longer joinable. -/
def Stop (w : AsyncWorker) : Except StdException AsyncWorker :=
  let w1 := w.requestStop
  if w1.thread_joinable then
    Except.ok { runThreadEntry joinFuel w1 with thread_joinable := false }
  else
    Except.error (StdException.system_error "Invalid argument")

/-- What the other threads and the background thread can do to a worker. -/
inductive Event where
  /-- A caller's `Push(data, len)` takes `mtx_` and completes. -/
  | push (data : List Byte)
  /-- The background thread takes its next step of `ThreadEntry`. -/
  | loop
  /-- A caller of `Stop()` sets `stop_`. -/
  | stop
  deriving Repr, DecidableEq

/-- One event; `none` when the event cannot happen in this state. -/
def step (conf : JsonData) (w : AsyncWorker) : Event → Option AsyncWorker
  | Event.push data => w.Push conf data
  | Event.loop => w.ThreadEntry
  | Event.stop => some w.requestStop

/-- A sequence of events, one interleaving of the threads. -/
def run (conf : JsonData) (w : AsyncWorker) : List Event → Option AsyncWorker
  | [] => some w
  | e :: es => (step conf w e).bind fun w1 => run conf w1 es

/-- The records pushed by a sequence of events, in lock order, concatenated. -/
def pushedBytes : List Event → List Byte
  | [] => []
  | Event.push data :: es => data ++ pushedBytes es
  | _ :: es => pushedBytes es

/-- Whether the event is a `Push`. -/
def Event.isPush : Event → Bool
  | Event.push _ => true
  | _ => false

/-- No `Push` takes the lock after `Stop()` has set `stop_`. -/
def pushesBeforeStop : List Event → Bool
  | [] => true
  | Event.stop :: es => es.all fun e => !e.isPush
  | _ :: es => pushesBeforeStop es

/-- A sequence of events during which the background thread does not swap the
buffers and no `Push` completes: `Stop` at any time, steps of the thread
anywhere but at its locked block.  `none` when the sequence holds another
event, or one that cannot happen. -/
def runWithoutSwap (conf : JsonData) (w : AsyncWorker) : List Event → Option AsyncWorker
  | [] => some w
  | e :: es =>
    if e.isPush = true ∨ (e = Event.loop ∧ w.pc = LoopPc.atLock) then none
    else (step conf w e).bind fun w1 => runWithoutSwap conf w1 es

/-- A bounded worker built with `conf` into which nothing has been pushed yet:
both buffers have their initial size and a write cursor of 0. -/
def Fresh (conf : JsonData) (w : AsyncWorker) : Prop :=
  w.async_type_ = AsyncType.ASYNC_SAFE ∧
  w.buffer_productor_.write_pos_ = 0 ∧ w.buffer_productor_.buffer_.length = conf.buffer_size ∧
  w.buffer_consumer_.write_pos_ = 0 ∧ w.buffer_consumer_.buffer_.length = conf.buffer_size

/-- The bytes a worker holds or has flushed, oldest first: the flushed ranges,
then the consumer-side readable range while it has not been handed to the
callback, then the producer-side readable range. -/
def content (w : AsyncWorker) : List Byte :=
  match w.pc with
  | LoopPc.atCallback =>
    w.flushed.flatten ++ w.buffer_consumer_.readable ++ w.buffer_productor_.readable
  | _ => w.flushed.flatten ++ w.buffer_productor_.readable

/-- Whether the consumer-side buffer has been reset since its last flush. -/
def consumerIdle (w : AsyncWorker) : Prop :=
  match w.pc with
  | LoopPc.atCallback => True
  | LoopPc.atReset => True
  | _ => w.buffer_consumer_.write_pos_ = 0

/-- Invariant of a bounded worker built with `conf` that has been pushed the
bytes `pushed`. -/
structure WInv (conf : JsonData) (w : AsyncWorker) (pushed : List Byte) : Prop where
  safe : w.async_type_ = AsyncType.ASYNC_SAFE
  prodInv : w.buffer_productor_.Inv
  prodRead : w.buffer_productor_.read_pos_ = 0
  prodCap : conf.buffer_size ≤ w.buffer_productor_.buffer_.length
  consInv : w.buffer_consumer_.Inv
  consRead : w.buffer_consumer_.read_pos_ = 0
  consCap : conf.buffer_size ≤ w.buffer_consumer_.buffer_.length
  idle : w.consumerIdle
  bytes : w.content = pushed

/-- The thread has returned only after `stop_` was set, with nothing left on the
producer side. -/
def ExitInv (w : AsyncWorker) : Prop :=
  w.pc = LoopPc.exited → w.stop_ = true ∧ w.buffer_productor_.IsEmpty = true

/-- What `pushesBeforeStop` asks of the events still to come in state `w`. -/
def quiet (w : AsyncWorker) (es : List Event) : Prop :=
  if w.stop_ = true then (es.all fun e => !e.isPush) = true else pushesBeforeStop es = true

end AsyncWorker

end mylog

/-- State of `class ThreadPool`: the flag `stop`, the FIFO queue `tasks`, and
`done`, the tasks the worker threads have taken from the queue and run, oldest
first.  A task is the record bound to `start_backup`.  The pool is taken to
have at least one worker thread. -/
structure ThreadPool where
  stop : Bool
  tasks : List (List mylog.Byte)
  done : List (List mylog.Byte)
  deriving Repr, DecidableEq

namespace ThreadPool

/-- Method `enqueue(f, args...)`: throws on a stopped pool, else appends the
task to the queue. -/
def enqueue (tp : ThreadPool) (task : List mylog.Byte) : Except mylog.StdException ThreadPool :=
  if tp.stop then
    Except.error (mylog.StdException.runtime_error "enqueue on stopped ThreadPool")
  else
    Except.ok { tp with tasks := tp.tasks ++ [task] }

/-- The worker threads taking every queued task in FIFO order and running it:
the state in which the future of the last task is ready. -/
def runTasks (tp : ThreadPool) : ThreadPool :=
  { tp with tasks := [], done := tp.done ++ tp.tasks }

/-- Every task the pool has accepted, oldest first: those already run, then
those still queued. -/
def accepted (tp : ThreadPool) : List (List mylog.Byte) := tp.done ++ tp.tasks

end ThreadPool

namespace mylog

/-- Modelled from the spec: `Level.hpp` is not among the sources; the five
severity levels, ascending, under the names `AsyncLogger.hpp` uses for them
(`LogLevel::value::DEBUG` ... `LogLevel::value::FATAL`). -/
inductive LogLevel where
  | DEBUG
  | INFO
  | WARN
  | ERROR
  | FATAL
  deriving Repr, DecidableEq

/-- What `AsyncLogger::serialize` acts on: the logger's name, the global pool
`tp`, `pushed`, the arguments of the calls `asyncworker->Push(data, len)` made
so far, oldest first, and `cout`, the messages written to `std::cout` (without
their `__FILE__` and `__LINE__` prefix). -/
structure AsyncLogger where
  logger_name_ : String
  tp : ThreadPool
  pushed : List (List Byte)
  cout : List String
  deriving Repr, DecidableEq

namespace AsyncLogger

/-- Method `Flush(data, len)`: one call of `asyncworker->Push(data, len)`. -/
def Flush (l : AsyncLogger) (data : List Byte) : AsyncLogger :=
  { l with pushed := l.pushed ++ [data] }

/-- The `try` block of `serialize`: `tp->enqueue(start_backup, data)` followed by
`ret.get()`.  `start_backup data` is what running the task leaves in its
future, which `ret.get()` returns or rethrows.  The result is the state the
block leaves and the exception it throws, if any. -/
def tryBackup (start_backup : List Byte → Except StdException Unit)
    (l : AsyncLogger) (data : List Byte) : AsyncLogger × Option StdException :=
  match l.tp.enqueue data with
  | Except.error e => (l, some e)
  | Except.ok tp1 =>
    match start_backup data with
    | Except.error e => ({ l with tp := tp1.runTasks }, some e)
    | Except.ok _ => ({ l with tp := tp1.runTasks }, none)

/-- Method `serialize(level, file, line, ret)`.  `format` is `LogMessage::format`
(`Message.hpp`) and `start_backup` the backup task (`backlog/CliBackupLog.hpp`),
both outside the sources.  The result is the state `serialize` leaves and the
exception that leaves it, if any. -/
def serialize (format : LogLevel → String → Nat → String → String → List Byte)
    (start_backup : List Byte → Except StdException Unit)
    (l : AsyncLogger) (level : LogLevel) (file : String) (line : Nat) (ret : String) :
    AsyncLogger × Option StdException :=
  let data := format level file line l.logger_name_ ret
  let r : AsyncLogger × Option StdException :=
    if level = LogLevel.FATAL ∨ level = LogLevel.ERROR then
      let t := tryBackup start_backup l data
      match t.2 with
      | some e =>
        if e.isRuntimeError then
          ({ t.1 with cout := t.1.cout ++ ["thread pool closed"] }, none)
        else (t.1, some e)
      | none => (t.1, none)
    else (l, none)
  match r.2 with
  | some e => (r.1, some e)
  | none => (r.1.Flush data, none)

end AsyncLogger

end mylog

namespace mylog

/-- The destinations a logger can be built with: the classes derived from
`LogFlush`, with the arguments of their constructors. -/
inductive FlushKind where
  | StdoutFlush
  | FileFlush (filename : String)
  | RollFileFlush (filename : String) (max_size : Nat)
  deriving Repr, DecidableEq

namespace AsyncLogger

/-- What an `AsyncLogger::ptr` leads to as far as `LoggerBuilder` and
`LoggerManager` are concerned: the logger as its constructor
`AsyncLogger(logger_name, flushs, type)` made it. -/
structure ptr where
  logger_name_ : String
  flushs_ : List FlushKind
  async_type : AsyncType
  deriving Repr, DecidableEq

/-- Method `Name()`, called through the pointer. -/
def ptr.Name (l : ptr) : String := l.logger_name_

end AsyncLogger

/-- State of `class LoggerBuilder`. -/
structure LoggerBuilder where
  logger_name_ : String
  flushs_ : List FlushKind
  async_type_ : AsyncType
  deriving Repr, DecidableEq

namespace LoggerBuilder

/-- A builder as `new LoggerBuilder()` leaves it: the default member values. -/
def new : LoggerBuilder :=
  { logger_name_ := "async_logger", flushs_ := [], async_type_ := AsyncType.ASYNC_SAFE }

/-- Method `BuildLoggerName(name)`. -/
def BuildLoggerName (b : LoggerBuilder) (name : String) : LoggerBuilder :=
  { b with logger_name_ := name }

/-- Method `BuildLopperType(type)`. -/
def BuildLopperType (b : LoggerBuilder) (type : AsyncType) : LoggerBuilder :=
  { b with async_type_ := type }

/-- Method `BuildLoggerFlush<FlushType>(args...)`. -/
def BuildLoggerFlush (b : LoggerBuilder) (f : FlushKind) : LoggerBuilder :=
  { b with flushs_ := b.flushs_ ++ [f] }

/-- Method `Build()`; the failed `assert` on an empty name is `none`.  Without a
destination the logger writes to standard output. -/
def Build (b : LoggerBuilder) : Option AsyncLogger.ptr :=
  if b.logger_name_.isEmpty then none
  else
    let flushs := if b.flushs_.isEmpty then [FlushKind.StdoutFlush] else b.flushs_
    some { logger_name_ := b.logger_name_, flushs_ := flushs, async_type := b.async_type_ }

end LoggerBuilder

/-- Method `find(name)` of `std::unordered_map`, on the list of its entries; `none`
is `end()`. -/
def umapFind {V : Type} (m : List (String × V)) (name : String) : Option V :=
  (m.find? fun kv => kv.1 == name).map fun kv => kv.2

/-- Method `insert(pair)` of `std::unordered_map`: an entry whose key is present
already is not inserted. -/
def umapInsert {V : Type} (m : List (String × V)) (kv : String × V) : List (String × V) :=
  if (umapFind m kv.1).isSome then m else m ++ [kv]

/-- State of `class LoggerManager`. -/
structure LoggerManager where
  default_logger_ : AsyncLogger.ptr
  loggers_ : List (String × AsyncLogger.ptr)
  deriving Repr, DecidableEq

namespace LoggerManager

/-- Constructor `LoggerManager()`: builds the logger named `default` and inserts
it under that name. -/
def init : Option LoggerManager :=
  match (LoggerBuilder.new.BuildLoggerName "default").Build with
  | some dflt => some { default_logger_ := dflt, loggers_ := umapInsert [] ("default", dflt) }
  | none => none

/-- Method `LoggerExist(name)`. -/
def LoggerExist (m : LoggerManager) (name : String) : Bool :=
  match umapFind m.loggers_ name with
  | none => false
  | some _ => true

/-- Method `AddLogger(AsyncLogger)`. -/
def AddLogger (m : LoggerManager) (l : AsyncLogger.ptr) : LoggerManager :=
  if m.LoggerExist l.Name then m
  else { m with loggers_ := umapInsert m.loggers_ (l.Name, l) }

/-- Method `GetLogger(name)`; `none` is the empty pointer `AsyncLogger::ptr()`. -/
def GetLogger (m : LoggerManager) (name : String) : Option AsyncLogger.ptr :=
  match umapFind m.loggers_ name with
  | none => none
  | some l => some l

/-- Method `DefaultLogger()`. -/
def DefaultLogger (m : LoggerManager) : AsyncLogger.ptr := m.default_logger_

/-- A sequence of `AddLogger` calls. -/
def addAll (m : LoggerManager) (ls : List AsyncLogger.ptr) : LoggerManager :=
  ls.foldl AddLogger m

end LoggerManager

/-- The fields of `struct tm` that `CreateFilename` reads, as `localtime_r` fills
them for a time not before 1900: `tm_year` counts from 1900, `tm_mon` from 0. -/
structure tm where
  tm_sec : Nat
  tm_min : Nat
  tm_hour : Nat
  tm_mday : Nat
  tm_mon : Nat
  tm_year : Nat
  deriving Repr, DecidableEq

/-- The value of a decimal digit character. -/
def digitVal (c : Char) : Nat := c.toNat - 48

/-- The number a decimal numeral stands for, most significant digit first. -/
def decode (l : List Char) : Nat := l.foldl (fun a c => 10 * a + digitVal c) 0

/-- The function `std::to_string` on a value that is not negative. -/
def to_string (n : Nat) : String := toString n

/-- An output file: its name and the `fwrite` calls made on it, oldest first. -/
structure LogFile where
  name : String
  writes : List (List Byte)
  deriving Repr, DecidableEq

/-- The call `fopen(name, "ab")` on the output files there are: a file of that
name is kept with what it holds, otherwise an empty file of that name is
created.  Every `fopen` is taken to succeed. -/
def fopen (files : List LogFile) (name : String) : List LogFile :=
  if files.any (fun f => f.name == name) then files
  else { name := name, writes := [] } :: files

/-- State of `class RollFileFlush`.  `fs_` is the name of the file the stream is
open on, `none` for `NULL`; `files` holds the output files, one entry for each
name, the one created last first.  The sink starts where no file of its names
exists. -/
structure RollFileFlush where
  cnt_ : Nat
  cur_size_ : Nat
  max_size_ : Nat
  basename_ : String
  fs_ : Option String
  files : List LogFile
  deriving Repr, DecidableEq

namespace RollFileFlush

/-- Constructor `RollFileFlush(filename, max_size)`. -/
def init (filename : String) (max_size : Nat) : RollFileFlush :=
  { cnt_ := 1, cur_size_ := 0, max_size_ := max_size, basename_ := filename, fs_ := none,
    files := [] }

/-- Method `CreateFilename()`; `t` is the local time `localtime_r` gives for
`Util::Date::Now()`.  Returns the name and the state with `cnt_` incremented. -/
def CreateFilename (s : RollFileFlush) (t : tm) : String × RollFileFlush :=
  let filename := s.basename_
  let filename := filename ++ to_string (t.tm_year + 1900)
  let filename := filename ++ to_string (t.tm_mon + 1)
  let filename := filename ++ to_string t.tm_mday
  let filename := filename ++ to_string (t.tm_hour + 1)
  let filename := filename ++ to_string (t.tm_min + 1)
  let filename := filename ++ (to_string (t.tm_sec + 1) ++ "-" ++ to_string s.cnt_ ++ ".log")
  (filename, { s with cnt_ := s.cnt_ + 1 })

/-- Method `InitLogFile()` at local time `t`. -/
def InitLogFile (s : RollFileFlush) (t : tm) : RollFileFlush :=
  if s.fs_ = none ∨ s.cur_size_ ≥ s.max_size_ then
    let s1 := if s.fs_ ≠ none then { s with fs_ := none } else s
    let r := s1.CreateFilename t
    { r.2 with fs_ := some r.1, files := fopen r.2.files r.1, cur_size_ := 0 }
  else s

/-- The call `fwrite(data, 1, len, fs_)` on an open stream: the bytes go to the
file the stream is open on. -/
def fwrite (s : RollFileFlush) (data : List Byte) : RollFileFlush :=
  match s.fs_ with
  | some nm =>
    { s with files := s.files.map fun f =>
        if f.name = nm then { f with writes := f.writes ++ [data] } else f }
  | none => s

/-- Method `Flush(data, len)` at local time `t`.  The `fflush` and `fsync` that
follow under `flush_log` change nothing that is modelled. -/
def Flush (s : RollFileFlush) (t : tm) (data : List Byte) : RollFileFlush :=
  let s1 := s.InitLogFile t
  let s2 := s1.fwrite data
  { s2 with cur_size_ := s2.cur_size_ + data.length }

/-- A sequence of `Flush` calls, each with the local time at which it is made. -/
def flushAll (s : RollFileFlush) (calls : List (tm × List Byte)) : RollFileFlush :=
  calls.foldl (fun st c => st.Flush c.1 c.2) s

/-- The number of bytes a sequence of `Flush` calls is given. -/
def totalLen (calls : List (tm × List Byte)) : Nat :=
  (calls.map fun c => c.2.length).sum

/-- Invariant of a `RollFileFlush`: the stream is open exactly when a file
exists, it is open on the file created last, `cur_size_` counts the bytes
written to that file, no two files share a name, and every file was named by
`CreateFilename` under a counter below `cnt_`. -/
def Wf (s : RollFileFlush) : Prop :=
  (s.fs_ = none ↔ s.files = []) ∧
  (∀ f fs, s.files = f :: fs → s.fs_ = some f.name ∧ s.cur_size_ = f.writes.flatten.length) ∧
  (s.files.map fun f => f.name).Nodup ∧
  (∀ f ∈ s.files, ∃ (t : tm) (k : Nat), k < s.cnt_ ∧
    f.name = (CreateFilename { s with cnt_ := k } t).1)

/-- Every write went to a file that held fewer than `max_size_` bytes. -/
def Within (s : RollFileFlush) : Prop :=
  ∀ f ∈ s.files, ∀ k, k < f.writes.length → (f.writes.take k).flatten.length < s.max_size_

end RollFileFlush

end mylog

/-! ## The buffer -/

namespace mylog

namespace Buffer

theorem copyInto_length (data : List Byte) :
    ∀ (v : List Byte) (pos : Nat), (copyInto data v pos).length = v.length := by
  induction data with
  | nil => intro v pos; rfl
  | cons b bs ih => intro v pos; simp [copyInto, ih]

theorem copyInto_eq (data : List Byte) :
    ∀ (v : List Byte) (pos : Nat), pos + data.length ≤ v.length →
      copyInto data v pos = v.take pos ++ data ++ v.drop (pos + data.length) := by
  induction data with
  | nil => intro v pos _; simp [copyInto]
  | cons b bs ih =>
    intro v pos h
    simp only [List.length_cons] at h
    have hpos : pos < v.length := by omega
    rw [copyInto, ih (v.set pos b) (pos + 1) (by simp; omega)]
    rw [List.set_eq_take_append_cons_drop, if_pos hpos]
    have hl : (List.take pos v).length = pos := by simp; omega
    have e1 : List.take (pos + 1) (List.take pos v ++ b :: List.drop (pos + 1) v)
        = List.take pos v ++ [b] := by
      rw [List.take_append_eq_append_take, hl]
      simp
    have e2 : List.drop (pos + 1 + bs.length) (List.take pos v ++ b :: List.drop (pos + 1) v)
        = List.drop (pos + (bs.length + 1)) v := by
      rw [List.drop_append_eq_append_drop, hl]
      have hsub : pos + 1 + bs.length - pos = bs.length + 1 := by omega
      rw [hsub, List.drop_succ_cons, List.drop_drop]
      have h2 : List.drop (pos + 1 + bs.length) (List.take pos v) = [] := by
        apply List.drop_eq_nil_of_le; simp; omega
      rw [h2]; simp
      congr 1; omega
    rw [e1, e2]; simp

theorem resize_length (v : List Byte) (n : Nat) : (resize v n).length = n := by
  unfold resize
  split
  · simp; omega
  · simp; omega

theorem resize_of_le (v : List Byte) (n : Nat) (h : v.length ≤ n) :
    resize v n = v ++ List.replicate (n - v.length) 0 := by
  unfold resize
  split
  · have : n = v.length := by omega
    subst this; simp
  · rfl

theorem ToBeEnough_write_pos (conf : JsonData) (b : Buffer) (len : Nat) :
    (ToBeEnough conf b len).write_pos_ = b.write_pos_ := by
  unfold ToBeEnough; simp only []; split_ifs <;> rfl

theorem ToBeEnough_read_pos (conf : JsonData) (b : Buffer) (len : Nat) :
    (ToBeEnough conf b len).read_pos_ = b.read_pos_ := by
  unfold ToBeEnough; simp only []; split_ifs <;> rfl

theorem ToBeEnough_buffer (conf : JsonData) (b : Buffer) (len : Nat) :
    ∃ k, (ToBeEnough conf b len).buffer_ = b.buffer_ ++ List.replicate k 0 := by
  unfold ToBeEnough; simp only []
  split_ifs
  · exact ⟨_, resize_of_le _ _ (by omega)⟩
  · exact ⟨_, resize_of_le _ _ (by omega)⟩
  · exact ⟨0, by simp⟩

theorem ToBeEnough_length_le (conf : JsonData) (b : Buffer) (len : Nat) :
    b.buffer_.length ≤ (ToBeEnough conf b len).buffer_.length := by
  obtain ⟨k, hk⟩ := ToBeEnough_buffer conf b len
  rw [hk]; simp

theorem Push_write_pos (conf : JsonData) (b : Buffer) (data : List Byte) :
    (b.Push conf data).write_pos_ = b.write_pos_ + data.length := by
  simp [Push, ToBeEnough_write_pos]

theorem Push_read_pos (conf : JsonData) (b : Buffer) (data : List Byte) :
    (b.Push conf data).read_pos_ = b.read_pos_ := by
  simp [Push, ToBeEnough_read_pos]

theorem Push_length (conf : JsonData) (b : Buffer) (data : List Byte) :
    (b.Push conf data).buffer_.length = (ToBeEnough conf b data.length).buffer_.length := by
  simp [Push, copyInto_length]

theorem Push_length_le (conf : JsonData) (b : Buffer) (data : List Byte) :
    b.buffer_.length ≤ (b.Push conf data).buffer_.length := by
  rw [Push_length]; exact ToBeEnough_length_le conf b data.length

/-- The storage after a `Push` that fits: the cells below `write_pos_` are kept,
then come the pushed bytes. -/
theorem Push_buffer_of_fits (conf : JsonData) (b : Buffer) (data : List Byte)
    (hw : b.write_pos_ ≤ b.buffer_.length) (hfit : data.length ≤ b.WriteableSize) :
    ∃ rest, (b.Push conf data).buffer_ = b.buffer_.take b.write_pos_ ++ data ++ rest := by
  obtain ⟨k, hk⟩ := ToBeEnough_buffer conf b data.length
  unfold WriteableSize at hfit
  have hlen : b.write_pos_ + data.length ≤ (ToBeEnough conf b data.length).buffer_.length := by
    rw [hk]; simp; omega
  refine ⟨List.drop (b.write_pos_ + data.length) (b.buffer_ ++ List.replicate k 0), ?_⟩
  show copyInto data (ToBeEnough conf b data.length).buffer_
      (ToBeEnough conf b data.length).write_pos_ = _
  rw [ToBeEnough_write_pos, copyInto_eq _ _ _ hlen, hk, List.take_append_of_le_length hw]

theorem Push_readable_of_fits (conf : JsonData) (b : Buffer) (data : List Byte)
    (hinv : b.Inv) (hfit : data.length ≤ b.WriteableSize) :
    (b.Push conf data).readable = b.readable ++ data := by
  obtain ⟨hr, hw⟩ := hinv
  obtain ⟨rest, hrest⟩ := Push_buffer_of_fits conf b data hw hfit
  unfold readable ReadableSize
  rw [hrest, Push_write_pos, Push_read_pos]
  have hl : (List.take b.write_pos_ b.buffer_).length = b.write_pos_ := by simp; omega
  rw [List.append_assoc, List.drop_append_of_le_length (by omega)]
  have hl2 : (List.drop b.read_pos_ (List.take b.write_pos_ b.buffer_)).length
      = b.write_pos_ - b.read_pos_ := by simp; omega
  rw [← List.append_assoc, List.take_append_eq_append_take]
  have hl3 : (List.drop b.read_pos_ (List.take b.write_pos_ b.buffer_) ++ data).length
      = b.write_pos_ + data.length - b.read_pos_ := by simp; omega
  rw [hl3, Nat.sub_self, List.take_zero, List.append_nil, List.take_of_length_le (by omega)]
  rw [List.drop_take]
  
theorem Push_inv_of_fits (conf : JsonData) (b : Buffer) (data : List Byte)
    (hinv : b.Inv) (hfit : data.length ≤ b.WriteableSize) : (b.Push conf data).Inv := by
  obtain ⟨hr, hw⟩ := hinv
  unfold WriteableSize at hfit
  have := Push_length_le conf b data
  unfold Inv
  rw [Push_write_pos, Push_read_pos]
  omega

end Buffer

/-- C4: for a buffer with `read_pos_ ≤ write_pos_ ≤ size()` and a record that
fits the writable length, `Push` appends the record to the readable range,
leaves `read_pos_` alone, advances `write_pos_` by the record's length, and
keeps every cell below the old `write_pos_`, whether or not the storage grew. -/
theorem Buffer_Push_appends (conf : JsonData) (b : Buffer) (data : List Byte)
    (hinv : b.Inv) (hfit : data.length ≤ b.WriteableSize) :
    (b.Push conf data).readable = b.readable ++ data ∧
    (b.Push conf data).read_pos_ = b.read_pos_ ∧
    (b.Push conf data).write_pos_ = b.write_pos_ + data.length ∧
    (b.Push conf data).buffer_.take b.write_pos_ = b.buffer_.take b.write_pos_ ∧
    (b.Push conf data).Inv := by
  refine ⟨Buffer.Push_readable_of_fits conf b data hinv hfit, Buffer.Push_read_pos conf b data,
    Buffer.Push_write_pos conf b data, ?_, Buffer.Push_inv_of_fits conf b data hinv hfit⟩
  obtain ⟨rest, hrest⟩ := Buffer.Push_buffer_of_fits conf b data hinv.2 hfit
  rw [hrest, List.append_assoc, List.take_append_of_le_length (by simp; exact hinv.2)]
  simp

end mylog

namespace mylog

/-- Witness of C4: a 3-byte record pushed into a 4-byte buffer holding one byte;
the push fills the buffer exactly, so the storage grows. -/
theorem Buffer_Push_appends_witness :
    (Buffer.mk [5, 0, 0, 0] 1 0).Inv ∧
    (([7, 8, 9] : List Byte).length ≤ (Buffer.mk [5, 0, 0, 0] 1 0).WriteableSize) ∧
    ((Buffer.mk [5, 0, 0, 0] 1 0).Push ⟨4, 1024, 8⟩ [7, 8, 9]).readable
      = (Buffer.mk [5, 0, 0, 0] 1 0).readable ++ [7, 8, 9] ∧
    ((Buffer.mk [5, 0, 0, 0] 1 0).Push ⟨4, 1024, 8⟩ [7, 8, 9]).buffer_.length = 12 :=
  ⟨by decide, by decide,
    (Buffer_Push_appends ⟨4, 1024, 8⟩ (Buffer.mk [5, 0, 0, 0] 1 0) [7, 8, 9]
      (by decide) (by decide)).1, by decide⟩

/-- C3, the code at a failing input: a 20-byte record pushed into a fresh 4-byte
buffer, below the threshold.  `ToBeEnough` grows the storage once, to 12 bytes,
which leaves the writable length below 20; after `Push` the write cursor is 20,
past the 12 bytes of storage, and the cursor invariant is broken. -/
theorem Buffer_Push_overruns_storage :
    (Buffer.init ⟨4, 1024, 8⟩).Inv ∧
    (Buffer.ToBeEnough ⟨4, 1024, 8⟩ (Buffer.init ⟨4, 1024, 8⟩) 20).WriteableSize = 12 ∧
    ((Buffer.init ⟨4, 1024, 8⟩).Push ⟨4, 1024, 8⟩ (List.replicate 20 7)).write_pos_ = 20 ∧
    ((Buffer.init ⟨4, 1024, 8⟩).Push ⟨4, 1024, 8⟩ (List.replicate 20 7)).buffer_.length = 12 ∧
    ¬ ((Buffer.init ⟨4, 1024, 8⟩).Push ⟨4, 1024, 8⟩ (List.replicate 20 7)).Inv := by
  decide

/-- C2, the code at a failing input: a bounded worker with 16-byte buffers.  A
16-byte record passes the wait of `Push` (16 ≤ 16) and `ToBeEnough` then grows
the producer-side storage to 48 bytes (16 ≥ 16); a 32-byte record follows
without any swap, and the producer-side buffer holds 48 unflushed bytes. -/
theorem AsyncWorker_Push_grows_bounded_buffer :
    (((AsyncWorker.init ⟨16, 1024, 8⟩ AsyncType.ASYNC_SAFE).run ⟨16, 1024, 8⟩
        [AsyncWorker.Event.push (List.replicate 16 1)]).map
      fun w => w.buffer_productor_.buffer_.length) = some 48 ∧
    (((AsyncWorker.init ⟨16, 1024, 8⟩ AsyncType.ASYNC_SAFE).run ⟨16, 1024, 8⟩
        [AsyncWorker.Event.push (List.replicate 16 1),
         AsyncWorker.Event.push (List.replicate 32 2)]).map
      fun w => w.buffer_productor_.ReadableSize) = some 48 := by
  decide

end mylog

/-! ## The worker -/

namespace mylog

namespace Buffer

theorem readable_of_empty (b : Buffer) (h : b.IsEmpty = true) : b.readable = [] := by
  unfold IsEmpty at h
  have : b.write_pos_ = b.read_pos_ := by simpa using h
  simp [readable, ReadableSize, this]

theorem readable_length (b : Buffer) (h : b.Inv) : b.readable.length = b.ReadableSize := by
  obtain ⟨hr, hw⟩ := h
  simp [readable, ReadableSize]; omega

theorem init_inv (conf : JsonData) : (Buffer.init conf).Inv := by
  simp [Buffer.init, Inv]

end Buffer

namespace AsyncWorker

theorem init_WInv (conf : JsonData) : WInv conf (init conf AsyncType.ASYNC_SAFE) [] := by
  refine ⟨rfl, Buffer.init_inv conf, rfl, ?_, Buffer.init_inv conf, rfl, ?_, rfl, ?_⟩
  · simp [init, Buffer.init]
  · simp [init, Buffer.init]
  · simp [content, init, Buffer.init, Buffer.readable, Buffer.ReadableSize]

theorem Push_some_iff (conf : JsonData) (w w1 : AsyncWorker) (data : List Byte)
    (hs : w.async_type_ = AsyncType.ASYNC_SAFE) :
    w.Push conf data = some w1 ↔
      data.length ≤ w.buffer_productor_.WriteableSize ∧
      w1 = { w with buffer_productor_ := w.buffer_productor_.Push conf data } := by
  unfold Push pushWaitCond
  by_cases h : data.length ≤ w.buffer_productor_.WriteableSize
  · simp [hs, h, eq_comm]
  · simp [hs, h]

theorem WInv_push (conf : JsonData) (w w1 : AsyncWorker) (pushed data : List Byte)
    (h : WInv conf w pushed) (hp : w.Push conf data = some w1) :
    WInv conf w1 (pushed ++ data) := by
  obtain ⟨hfit, rfl⟩ := (Push_some_iff conf w w1 data h.safe).1 hp
  have hrd := Buffer.Push_readable_of_fits conf _ data h.prodInv hfit
  refine ⟨h.safe, Buffer.Push_inv_of_fits conf _ data h.prodInv hfit, ?_, ?_, h.consInv,
    h.consRead, h.consCap, h.idle, ?_⟩
  · show (w.buffer_productor_.Push conf data).read_pos_ = 0
    rw [Buffer.Push_read_pos]; exact h.prodRead
  · exact le_trans h.prodCap (Buffer.Push_length_le conf _ data)
  · have hb := h.bytes
    unfold content at hb ⊢
    cases hpc : w.pc <;> simp only [hpc] at hb ⊢ <;> rw [hrd, ← hb] <;> simp

theorem WInv_loop (conf : JsonData) (w w1 : AsyncWorker) (pushed : List Byte)
    (h : WInv conf w pushed) (hl : w.ThreadEntry = some w1) : WInv conf w1 pushed := by
  obtain ⟨hsafe, hpi, hpr, hpc, hci, hcr, hcc, hidle, hb⟩ := h
  unfold ThreadEntry at hl
  cases hpcv : w.pc <;> simp only [hpcv] at hl
  · -- the locked block: the buffers are swapped
    split at hl
    · cases hl
    · cases hl
      have hcw : w.buffer_consumer_.write_pos_ = 0 := by
        simpa [consumerIdle, hpcv] using hidle
      have hce : w.buffer_consumer_.readable = [] :=
        Buffer.readable_of_empty _ (by simp [Buffer.IsEmpty, hcw, hcr])
      refine ⟨hsafe, hci, hcr, hcc, hpi, hpr, hpc, trivial, ?_⟩
      simpa [content, hpcv, Buffer.Swap, hce] using hb
  · -- the callback
    cases hl
    refine ⟨hsafe, hpi, hpr, hpc, hci, hcr, hcc, trivial, ?_⟩
    simpa [content, hpcv] using hb
  · -- the reset
    cases hl
    refine ⟨hsafe, hpi, hpr, hpc, ?_, rfl, hcc, rfl, ?_⟩
    · simp [Buffer.Reset, Buffer.Inv]
    · simpa [content, hpcv] using hb
  · -- the exit test
    have hcw : w.buffer_consumer_.write_pos_ = 0 := by
      simpa [consumerIdle, hpcv] using hidle
    split at hl <;> cases hl
    · refine ⟨hsafe, hpi, hpr, hpc, hci, hcr, hcc, hcw, ?_⟩
      simpa [content, hpcv] using hb
    · refine ⟨hsafe, hpi, hpr, hpc, hci, hcr, hcc, hcw, ?_⟩
      simpa [content, hpcv] using hb
  · cases hl

theorem WInv_stop (conf : JsonData) (w : AsyncWorker) (pushed : List Byte)
    (h : WInv conf w pushed) : WInv conf w.requestStop pushed := by
  obtain ⟨hsafe, hpi, hpr, hpc, hci, hcr, hcc, hidle, hb⟩ := h
  exact ⟨hsafe, hpi, hpr, hpc, hci, hcr, hcc, hidle, hb⟩

theorem WInv_step (conf : JsonData) (w w1 : AsyncWorker) (pushed : List Byte) (e : Event)
    (h : WInv conf w pushed) (hs : step conf w e = some w1) :
    WInv conf w1 (pushed ++ pushedBytes [e]) := by
  cases e with
  | push data => simpa [pushedBytes] using WInv_push conf w w1 pushed data h hs
  | loop => simpa [pushedBytes] using WInv_loop conf w w1 pushed h hs
  | stop =>
    simp only [step, Option.some.injEq] at hs
    subst hs
    simpa [pushedBytes] using WInv_stop conf w pushed h

theorem pushedBytes_cons (e : Event) (es : List Event) :
    pushedBytes (e :: es) = pushedBytes [e] ++ pushedBytes es := by
  cases e <;> simp [pushedBytes]

theorem WInv_run (conf : JsonData) (es : List Event) :
    ∀ (w w1 : AsyncWorker) (pushed : List Byte), WInv conf w pushed →
      run conf w es = some w1 → WInv conf w1 (pushed ++ pushedBytes es) := by
  induction es with
  | nil =>
    intro w w1 pushed h hr
    simp only [run, Option.some.injEq] at hr
    subst hr
    simpa [pushedBytes] using h
  | cons e es ih =>
    intro w w1 pushed h hr
    simp only [run] at hr
    cases hs : step conf w e with
    | none => simp [hs] at hr
    | some w2 =>
      simp only [hs, Option.some_bind] at hr
      have := ih w2 w1 _ (WInv_step conf w w2 pushed e h hs) hr
      rw [pushedBytes_cons, ← List.append_assoc]
      exact this

theorem WInv_reachable (conf : JsonData) (es : List Event) (w : AsyncWorker)
    (hr : run conf (init conf AsyncType.ASYNC_SAFE) es = some w) :
    WInv conf w (pushedBytes es) := by
  simpa using WInv_run conf es _ w [] (init_WInv conf) hr

theorem Push_fields (conf : JsonData) (w w1 : AsyncWorker) (data : List Byte)
    (hp : w.Push conf data = some w1) : w1.stop_ = w.stop_ ∧ w1.pc = w.pc := by
  unfold Push at hp
  split at hp
  · cases hp
  · cases hp; exact ⟨rfl, rfl⟩

theorem ThreadEntry_stop (w w1 : AsyncWorker) (hl : w.ThreadEntry = some w1) :
    w1.stop_ = w.stop_ := by
  unfold ThreadEntry at hl
  cases hpc : w.pc <;> simp only [hpc] at hl
  · split at hl <;> cases hl; rfl
  · cases hl; rfl
  · cases hl; rfl
  · split at hl <;> cases hl <;> rfl
  · cases hl

theorem quiet_step (conf : JsonData) (w w1 : AsyncWorker) (e : Event) (es : List Event)
    (hq : quiet w (e :: es)) (hs : step conf w e = some w1) :
    quiet w1 es ∧ (e.isPush = true → w.stop_ = false) := by
  unfold quiet at hq ⊢
  cases e with
  | push data =>
    obtain ⟨h1, _⟩ := Push_fields conf w w1 data hs
    rw [h1]
    cases hst : w.stop_ <;> simp [hst, pushesBeforeStop, Event.isPush] at hq ⊢
    exact hq
  | loop =>
    have h1 := ThreadEntry_stop w w1 hs
    rw [h1]
    cases hst : w.stop_ <;> simp [hst, pushesBeforeStop, Event.isPush] at hq ⊢
    · exact hq
    · exact hq
  | stop =>
    simp only [step, Option.some.injEq] at hs
    subst hs
    cases hst : w.stop_ <;> simp [hst, pushesBeforeStop, Event.isPush, requestStop] at hq ⊢
    · exact hq
    · exact hq

theorem ExitInv_step (conf : JsonData) (w w1 : AsyncWorker) (e : Event) (es : List Event)
    (h : ExitInv w) (hq : quiet w (e :: es)) (hs : step conf w e = some w1) : ExitInv w1 := by
  have hq2 := (quiet_step conf w w1 e es hq hs).2
  intro hex
  cases e with
  | push data =>
    obtain ⟨_, h2⟩ := Push_fields conf w w1 data hs
    have := (h (h2 ▸ hex)).1
    have := hq2 rfl
    simp_all
  | loop =>
    simp only [step] at hs
    unfold ThreadEntry at hs
    cases hpc : w.pc <;> simp only [hpc] at hs
    · split at hs <;> cases hs; cases hex
    · cases hs; cases hex
    · cases hs; cases hex
    · split at hs
      · rename_i hc
        cases hs
        simpa using hc
      · cases hs; cases hex
    · cases hs
  | stop =>
    simp only [step, Option.some.injEq] at hs
    subst hs
    exact ⟨rfl, (h hex).2⟩

theorem ExitInv_run (conf : JsonData) (es : List Event) :
    ∀ (w w1 : AsyncWorker), ExitInv w → quiet w es → run conf w es = some w1 → ExitInv w1 := by
  induction es with
  | nil =>
    intro w w1 h _ hr
    simp only [run, Option.some.injEq] at hr
    subst hr; exact h
  | cons e es ih =>
    intro w w1 h hq hr
    simp only [run] at hr
    cases hs : step conf w e with
    | none => simp [hs] at hr
    | some w2 =>
      simp only [hs, Option.some_bind] at hr
      exact ih w2 w1 (ExitInv_step conf w w2 e es h hq hs) (quiet_step conf w w2 e es hq hs).1 hr

/-- Once `stop_` is set, the background thread returns within seven of its own steps. -/
theorem loop_exits (conf : JsonData) (w : AsyncWorker) (pushed : List Byte)
    (h : WInv conf w pushed) (hs : w.stop_ = true) :
    ∃ k, k ≤ 7 ∧ ∃ w1, run conf w (List.replicate k Event.loop) = some w1 ∧
      w1.pc = LoopPc.exited := by
  have hidle := h.idle
  have hcr := h.consRead
  rcases w with ⟨t, s, P, C, j, pc, F⟩
  simp only at hs hcr
  subst hs
  by_cases hP : P.write_pos_ = P.read_pos_
  · cases pc
    · refine ⟨4, by omega, ?_⟩
      have : C.write_pos_ = 0 := by simpa [consumerIdle] using hidle
      simp [List.replicate, run, step, ThreadEntry, loopWaits, Buffer.Swap, Buffer.Reset, Buffer.IsEmpty, hP, this, hcr]
    · refine ⟨3, by omega, ?_⟩
      simp [List.replicate, run, step, ThreadEntry, loopWaits, Buffer.Swap, Buffer.Reset, Buffer.IsEmpty, hP]
    · refine ⟨2, by omega, ?_⟩
      simp [List.replicate, run, step, ThreadEntry, loopWaits, Buffer.Swap, Buffer.Reset, Buffer.IsEmpty, hP]
    · refine ⟨1, by omega, ?_⟩
      simp [List.replicate, run, step, ThreadEntry, loopWaits, Buffer.Swap, Buffer.Reset, Buffer.IsEmpty, hP]
    · exact ⟨0, by omega, _, rfl, rfl⟩
  · cases pc
    · refine ⟨4, by omega, ?_⟩
      have : C.write_pos_ = 0 := by simpa [consumerIdle] using hidle
      simp [List.replicate, run, step, ThreadEntry, loopWaits, Buffer.Swap, Buffer.Reset, Buffer.IsEmpty, hP, this, hcr]
    · refine ⟨7, by omega, ?_⟩
      simp [List.replicate, run, step, ThreadEntry, loopWaits, Buffer.Swap, Buffer.Reset, Buffer.IsEmpty, hP]
    · refine ⟨6, by omega, ?_⟩
      simp [List.replicate, run, step, ThreadEntry, loopWaits, Buffer.Swap, Buffer.Reset, Buffer.IsEmpty, hP]
    · refine ⟨5, by omega, ?_⟩
      have : C.write_pos_ = 0 := by simpa [consumerIdle] using hidle
      simp [List.replicate, run, step, ThreadEntry, loopWaits, Buffer.Swap, Buffer.Reset, Buffer.IsEmpty, hP, this, hcr]
    · exact ⟨0, by omega, _, rfl, rfl⟩

theorem pushedBytes_loops (k : Nat) : pushedBytes (List.replicate k Event.loop) = [] := by
  induction k with
  | zero => rfl
  | succ k ih => simpa [List.replicate, pushedBytes] using ih

theorem quiet_loops (w : AsyncWorker) (k : Nat) (hs : w.stop_ = true) :
    quiet w (List.replicate k Event.loop) := by
  unfold quiet
  simp [hs, Event.isPush]

theorem flushed_of_exited (conf : JsonData) (w : AsyncWorker) (pushed : List Byte)
    (h : WInv conf w pushed) (he : ExitInv w) (hex : w.pc = LoopPc.exited) :
    w.flushed.flatten = pushed := by
  have hb := h.bytes
  have hr := Buffer.readable_of_empty _ (he hex).2
  simpa [content, hex, hr] using hb

theorem ExitInv_reachable (conf : JsonData) (es : List Event) (w : AsyncWorker)
    (hr : run conf (init conf AsyncType.ASYNC_SAFE) es = some w)
    (hord : pushesBeforeStop es = true) : ExitInv w := by
  refine ExitInv_run conf es _ w ?_ ?_ hr
  · intro h; cases h
  · simpa [quiet, init] using hord

theorem prod_write_pos_le (conf : JsonData) (w : AsyncWorker) (pushed : List Byte)
    (h : WInv conf w pushed) : w.buffer_productor_.write_pos_ ≤ pushed.length := by
  have hl := Buffer.readable_length _ h.prodInv
  have hr := h.prodRead
  have hb := congrArg List.length h.bytes
  unfold Buffer.ReadableSize at hl
  rw [hr] at hl
  unfold content at hb
  cases hpc : w.pc <;> simp only [hpc, List.length_append] at hb <;> omega

end AsyncWorker

/-- C1: a bounded worker, any interleaving of `Push` calls, steps of the
background thread and `Stop`, with no `Push` after `stop_` was set.  When the
thread has returned, the ranges handed to the callback, concatenated, are the
pushed records in lock order.  And the thread does return: once `stop_` is set
it needs at most seven more steps of its own, and has then flushed exactly
those bytes. -/
theorem AsyncWorker_flushes_pushed_in_order (conf : JsonData) (tr : List AsyncWorker.Event)
    (w : AsyncWorker)
    (hrun : AsyncWorker.run conf (AsyncWorker.init conf AsyncType.ASYNC_SAFE) tr = some w)
    (hord : AsyncWorker.pushesBeforeStop tr = true) :
    (w.pc = LoopPc.exited → w.flushed.flatten = AsyncWorker.pushedBytes tr) ∧
    (w.stop_ = true → ∃ k, k ≤ 7 ∧ ∃ w1,
      AsyncWorker.run conf w (List.replicate k AsyncWorker.Event.loop) = some w1 ∧
      w1.pc = LoopPc.exited ∧ w1.flushed.flatten = AsyncWorker.pushedBytes tr) := by
  have hW := AsyncWorker.WInv_reachable conf tr w hrun
  have hE := AsyncWorker.ExitInv_reachable conf tr w hrun hord
  refine ⟨AsyncWorker.flushed_of_exited conf w _ hW hE, ?_⟩
  intro hs
  obtain ⟨k, hk, w1, hr1, hex⟩ := AsyncWorker.loop_exits conf w _ hW hs
  refine ⟨k, hk, w1, hr1, hex, ?_⟩
  have hW1 := AsyncWorker.WInv_run conf _ w w1 _ hW hr1
  rw [AsyncWorker.pushedBytes_loops, List.append_nil] at hW1
  have hE1 := AsyncWorker.ExitInv_run conf _ w w1 hE (AsyncWorker.quiet_loops w k hs) hr1
  exact AsyncWorker.flushed_of_exited conf w1 _ hW1 hE1 hex

/-- Witness of C1: two records, a swap between them, `Stop` after the second,
and the thread run until it returns. -/
theorem AsyncWorker_flushes_pushed_in_order_witness :
    (AsyncWorker.run ⟨16, 1024, 8⟩ (AsyncWorker.init ⟨16, 1024, 8⟩ AsyncType.ASYNC_SAFE)
      [.push [1, 2, 3], .loop, .push [4, 5], .stop, .loop, .loop, .loop, .loop, .loop,
        .loop, .loop]).map (fun w => (w.pc, w.flushed))
      = some (LoopPc.exited, [[1, 2, 3], [4, 5]]) ∧
    ((⟨AsyncType.ASYNC_SAFE, true, ⟨[1, 2, 3] ++ List.replicate 13 0, 0, 0⟩,
        ⟨[4, 5] ++ List.replicate 14 0, 0, 0⟩, true, LoopPc.exited,
        [[1, 2, 3], [4, 5]]⟩ : AsyncWorker).flushed.flatten = [1, 2, 3, 4, 5]) :=
  ⟨by decide,
    (AsyncWorker_flushes_pushed_in_order ⟨16, 1024, 8⟩
      [.push [1, 2, 3], .loop, .push [4, 5], .stop, .loop, .loop, .loop, .loop, .loop,
        .loop, .loop]
      ⟨AsyncType.ASYNC_SAFE, true, ⟨[1, 2, 3] ++ List.replicate 13 0, 0, 0⟩,
        ⟨[4, 5] ++ List.replicate 14 0, 0, 0⟩, true, LoopPc.exited, [[1, 2, 3], [4, 5]]⟩
      (by decide) (by decide)).1 rfl⟩

/-- C5: a bounded worker with buffers of `buffer_size` bytes, in any state
reached from construction by `Push` calls, steps of the background thread and
`Stop`.  A `Push` that keeps the total of the pushed lengths within
`buffer_size` finds its wait condition true: it completes without blocking. -/
theorem AsyncWorker_Push_never_blocks_within_capacity (conf : JsonData)
    (tr : List AsyncWorker.Event) (w : AsyncWorker) (data : List Byte)
    (hrun : AsyncWorker.run conf (AsyncWorker.init conf AsyncType.ASYNC_SAFE) tr = some w)
    (htotal : (AsyncWorker.pushedBytes tr).length + data.length ≤ conf.buffer_size) :
    w.pushWaitCond data.length = true ∧ (w.Push conf data).isSome = true := by
  have hW := AsyncWorker.WInv_reachable conf tr w hrun
  have h1 := AsyncWorker.prod_write_pos_le conf w _ hW
  have h2 := hW.prodCap
  have hc : data.length ≤ w.buffer_productor_.WriteableSize := by
    unfold Buffer.WriteableSize; omega
  refine ⟨by simpa [AsyncWorker.pushWaitCond] using hc, ?_⟩
  simp [AsyncWorker.Push, AsyncWorker.pushWaitCond, hc]

/-- Witness of C5: 16-byte buffers, 10 bytes pushed, a swap, then 6 more bytes. -/
theorem AsyncWorker_Push_never_blocks_within_capacity_witness :
    (AsyncWorker.run ⟨16, 1024, 8⟩ (AsyncWorker.init ⟨16, 1024, 8⟩ AsyncType.ASYNC_SAFE)
      [.push (List.replicate 10 1), .loop]).isSome = true ∧
    ((AsyncWorker.run ⟨16, 1024, 8⟩ (AsyncWorker.init ⟨16, 1024, 8⟩ AsyncType.ASYNC_SAFE)
      [.push (List.replicate 10 1), .loop]).map
        fun w => (w.Push ⟨16, 1024, 8⟩ (List.replicate 6 2)).isSome) = some true :=
  ⟨by decide, by
    have h := AsyncWorker_Push_never_blocks_within_capacity ⟨16, 1024, 8⟩
      [.push (List.replicate 10 1), .loop]
      ⟨AsyncType.ASYNC_SAFE, false, ⟨List.replicate 16 0, 0, 0⟩,
        ⟨List.replicate 10 1 ++ List.replicate 6 0, 10, 0⟩, true, LoopPc.atCallback, []⟩
      (List.replicate 6 2) (by decide) (by decide)
    have hrun : AsyncWorker.run ⟨16, 1024, 8⟩
        (AsyncWorker.init ⟨16, 1024, 8⟩ AsyncType.ASYNC_SAFE)
        [.push (List.replicate 10 1), .loop]
        = some ⟨AsyncType.ASYNC_SAFE, false, ⟨List.replicate 16 0, 0, 0⟩,
          ⟨List.replicate 10 1 ++ List.replicate 6 0, 10, 0⟩, true, LoopPc.atCallback, []⟩ := by
      decide
    rw [hrun]
    simpa using h.2⟩

end mylog

/-! ## Backpressure and stop -/

namespace mylog

namespace Buffer

theorem Push_length_of_room (conf : JsonData) (b : Buffer) (data : List Byte)
    (h : data.length < b.WriteableSize) :
    (b.Push conf data).buffer_.length = b.buffer_.length := by
  rw [Buffer.Push_length]
  unfold Buffer.ToBeEnough
  simp only []
  rw [if_neg (by omega)]

end Buffer

namespace AsyncWorker

theorem Fresh_run (conf : JsonData) (es : List Event) :
    ∀ (w w1 : AsyncWorker), Fresh conf w → (es.all fun e => !e.isPush) = true →
      run conf w es = some w1 → Fresh conf w1 := by
  induction es with
  | nil =>
    intro w w1 h _ hr
    simp only [run, Option.some.injEq] at hr
    subst hr; exact h
  | cons e es ih =>
    intro w w1 h hall hr
    simp only [List.all_cons, Bool.and_eq_true] at hall
    simp only [run] at hr
    cases hs : step conf w e with
    | none => simp [hs] at hr
    | some w2 =>
      simp only [hs, Option.some_bind] at hr
      refine ih w2 w1 ?_ hall.2 hr
      obtain ⟨h0, h1, h2, h3, h4⟩ := h
      cases e with
      | push data => simp [Event.isPush] at hall
      | loop =>
        simp only [step] at hs
        unfold ThreadEntry at hs
        cases hpc : w.pc <;> simp only [hpc] at hs
        · split at hs <;> cases hs
          exact ⟨h0, h3, h4, h1, h2⟩
        · cases hs; exact ⟨h0, h1, h2, h3, h4⟩
        · cases hs; exact ⟨h0, h1, h2, rfl, h4⟩
        · split at hs <;> cases hs <;> exact ⟨h0, h1, h2, h3, h4⟩
        · cases hs
      | stop =>
        simp only [step, Option.some.injEq] at hs
        subst hs
        exact ⟨h0, h1, h2, h3, h4⟩

theorem runWithoutSwap_prod (conf : JsonData) (es : List Event) :
    ∀ (w w1 : AsyncWorker), runWithoutSwap conf w es = some w1 →
      w1.buffer_productor_ = w.buffer_productor_ ∧ w1.async_type_ = w.async_type_ := by
  induction es with
  | nil =>
    intro w w1 hr
    simp only [runWithoutSwap, Option.some.injEq] at hr
    subst hr; exact ⟨rfl, rfl⟩
  | cons e es ih =>
    intro w w1 hr
    simp only [runWithoutSwap] at hr
    split at hr
    · cases hr
    · rename_i hne
      cases hs : step conf w e with
      | none => simp [hs] at hr
      | some w2 =>
        simp only [hs, Option.some_bind] at hr
        obtain ⟨h1, h2⟩ := ih w2 w1 hr
        rw [h1, h2]
        cases e with
        | push data => simp [Event.isPush] at hne
        | loop =>
          simp only [step] at hs
          unfold ThreadEntry at hs
          cases hpc : w.pc <;> simp only [hpc] at hs
          · simp [hpc] at hne
          · cases hs; exact ⟨rfl, rfl⟩
          · cases hs; exact ⟨rfl, rfl⟩
          · split at hs <;> cases hs <;> exact ⟨rfl, rfl⟩
          · cases hs
        | stop =>
          simp only [step, Option.some.injEq] at hs
          subst hs
          exact ⟨rfl, rfl⟩

theorem runThreadEntry_exits (w : AsyncWorker) (hs : w.stop_ = true) :
    (runThreadEntry joinFuel w).pc = LoopPc.exited := by
  rcases w with ⟨t, s, P, C, j, pc, F⟩
  simp only at hs
  subst hs
  by_cases hP : P.write_pos_ = P.read_pos_ <;> by_cases hC : C.write_pos_ = C.read_pos_ <;>
    cases pc <;>
    simp [joinFuel, runThreadEntry, ThreadEntry, loopWaits, Buffer.Swap, Buffer.Reset,
      Buffer.IsEmpty, hP, hC]

end AsyncWorker

/-- C6: in a bounded worker a `Push` that completes found its record no longer
than the writable length of the producer-side buffer.  And with 16-byte
buffers: after a first 10-byte `Push`, whatever the thread and `Stop` did before
it, a second 10-byte `Push` cannot complete in any state reached from there
without a swap of the buffers. -/
theorem AsyncWorker_Push_waits_for_room :
    (∀ (conf : JsonData) (w w1 : AsyncWorker) (data : List Byte),
      w.async_type_ = AsyncType.ASYNC_SAFE → w.Push conf data = some w1 →
        data.length ≤ w.buffer_productor_.WriteableSize) ∧
    (∀ (conf : JsonData) (pre post : List AsyncWorker.Event) (w0 w2 : AsyncWorker)
      (d1 d2 : List Byte),
      conf.buffer_size = 16 → d1.length = 10 → d2.length = 10 →
      (pre.all fun e => !e.isPush) = true →
      AsyncWorker.run conf (AsyncWorker.init conf AsyncType.ASYNC_SAFE) pre = some w0 →
      ∃ w1, w0.Push conf d1 = some w1 ∧
        (AsyncWorker.runWithoutSwap conf w1 post = some w2 → w2.Push conf d2 = none)) := by
  constructor
  · intro conf w w1 data hs hp
    exact ((AsyncWorker.Push_some_iff conf w w1 data hs).1 hp).1
  · intro conf pre post w0 w2 d1 d2 h16 hd1 hd2 hpre hrun
    have hF : AsyncWorker.Fresh conf w0 :=
      AsyncWorker.Fresh_run conf pre _ w0
        ⟨rfl, rfl, by simp [AsyncWorker.init, Buffer.init], rfl,
          by simp [AsyncWorker.init, Buffer.init]⟩ hpre hrun
    obtain ⟨h0, h1, h2, _, _⟩ := hF
    have hw : w0.buffer_productor_.WriteableSize = 16 := by
      unfold Buffer.WriteableSize; omega
    refine ⟨_, (AsyncWorker.Push_some_iff conf w0 _ d1 h0).2 ⟨by omega, rfl⟩, ?_⟩
    intro hpost
    obtain ⟨hp, ht⟩ := AsyncWorker.runWithoutSwap_prod conf post _ w2 hpost
    have hlen := Buffer.Push_length_of_room conf w0.buffer_productor_ d1 (by omega)
    have hwp := Buffer.Push_write_pos conf w0.buffer_productor_ d1
    simp only at hp ht
    have hcond : w2.pushWaitCond d2.length = false := by
      unfold AsyncWorker.pushWaitCond Buffer.WriteableSize
      rw [hp, hlen, hwp]
      simp; omega
    simp [AsyncWorker.Push, ht, h0, hcond]

/-- Witness of C6: the thread has swapped and flushed two empty buffers, the
first 10 bytes arrive, the thread resets its buffer and `Stop` is called; the
second 10 bytes are still blocked. -/
theorem AsyncWorker_Push_waits_for_room_witness :
    AsyncWorker.run ⟨16, 1024, 8⟩ (AsyncWorker.init ⟨16, 1024, 8⟩ AsyncType.ASYNC_SAFE)
      [.loop, .loop]
      = some ⟨AsyncType.ASYNC_SAFE, false, ⟨List.replicate 16 0, 0, 0⟩,
          ⟨List.replicate 16 0, 0, 0⟩, true, LoopPc.atReset, [[]]⟩ ∧
    ((AsyncWorker.Push ⟨16, 1024, 8⟩
        ⟨AsyncType.ASYNC_SAFE, false, ⟨List.replicate 16 0, 0, 0⟩,
          ⟨List.replicate 16 0, 0, 0⟩, true, LoopPc.atReset, [[]]⟩ (List.replicate 10 1)).bind
      fun w1 => AsyncWorker.runWithoutSwap ⟨16, 1024, 8⟩ w1 [.loop, .stop])
      = some ⟨AsyncType.ASYNC_SAFE, true, ⟨List.replicate 10 1 ++ List.replicate 6 0, 10, 0⟩,
          ⟨List.replicate 16 0, 0, 0⟩, true, LoopPc.atCheck, [[]]⟩ ∧
    AsyncWorker.Push ⟨16, 1024, 8⟩
      ⟨AsyncType.ASYNC_SAFE, true, ⟨List.replicate 10 1 ++ List.replicate 6 0, 10, 0⟩,
        ⟨List.replicate 16 0, 0, 0⟩, true, LoopPc.atCheck, [[]]⟩ (List.replicate 10 2) = none := by
  refine ⟨by decide, by decide, ?_⟩
  obtain ⟨w1, h1, h2⟩ := AsyncWorker_Push_waits_for_room.2 ⟨16, 1024, 8⟩ [.loop, .loop]
    [.loop, .stop]
    ⟨AsyncType.ASYNC_SAFE, false, ⟨List.replicate 16 0, 0, 0⟩,
      ⟨List.replicate 16 0, 0, 0⟩, true, LoopPc.atReset, [[]]⟩
    ⟨AsyncType.ASYNC_SAFE, true, ⟨List.replicate 10 1 ++ List.replicate 6 0, 10, 0⟩,
      ⟨List.replicate 16 0, 0, 0⟩, true, LoopPc.atCheck, [[]]⟩
    (List.replicate 10 1) (List.replicate 10 2) rfl (by decide) (by decide) (by decide)
    (by decide)
  have e1 : AsyncWorker.Push ⟨16, 1024, 8⟩
      ⟨AsyncType.ASYNC_SAFE, false, ⟨List.replicate 16 0, 0, 0⟩,
        ⟨List.replicate 16 0, 0, 0⟩, true, LoopPc.atReset, [[]]⟩ (List.replicate 10 1)
      = some ⟨AsyncType.ASYNC_SAFE, false,
        ⟨List.replicate 10 1 ++ List.replicate 6 0, 10, 0⟩,
        ⟨List.replicate 16 0, 0, 0⟩, true, LoopPc.atReset, [[]]⟩ := by decide
  rw [e1] at h1
  cases h1
  exact h2 (by decide)

/-- C7, the claim as stated fails: 16-byte buffers and one 20-byte record.  The
`Push` is blocked in the fresh worker, the thread swaps the buffers, and in the
state right after the swap the wait condition is still false: the `Push` stays
blocked. -/
theorem AsyncWorker_oversize_Push_stays_blocked :
    (AsyncWorker.init ⟨16, 1024, 8⟩ AsyncType.ASYNC_SAFE).Push ⟨16, 1024, 8⟩
      (List.replicate 20 1) = none ∧
    (AsyncWorker.init ⟨16, 1024, 8⟩ AsyncType.ASYNC_SAFE).pc = LoopPc.atLock ∧
    ((AsyncWorker.init ⟨16, 1024, 8⟩ AsyncType.ASYNC_SAFE).ThreadEntry.map fun w1 =>
      (w1.pc, w1.pushWaitCond (List.replicate 20 1).length,
        w1.Push ⟨16, 1024, 8⟩ (List.replicate 20 1)))
      = some (LoopPc.atCallback, false, none) := by
  decide

/-- C7 as amended: in any state of a bounded worker reached from construction,
when the thread swaps the buffers the producer side receives the reset
consumer-side buffer, whose storage is never smaller than `buffer_size`.  In the
state right after the swap the wait condition of a `Push` holds exactly when
the record is no longer than that storage; so every `Push` of at most
`buffer_size` bytes finds it true. -/
theorem AsyncWorker_swap_unblocks_fitting_Push (conf : JsonData) (tr : List AsyncWorker.Event)
    (w w1 : AsyncWorker) (data : List Byte)
    (hrun : AsyncWorker.run conf (AsyncWorker.init conf AsyncType.ASYNC_SAFE) tr = some w)
    (hpc : w.pc = LoopPc.atLock) (hswap : w.ThreadEntry = some w1) :
    w1.buffer_productor_ = w.buffer_consumer_ ∧ w1.buffer_consumer_ = w.buffer_productor_ ∧
    conf.buffer_size ≤ w.buffer_consumer_.buffer_.length ∧
    (w1.pushWaitCond data.length = true ↔ data.length ≤ w.buffer_consumer_.buffer_.length) ∧
    ((w1.Push conf data).isSome = true ↔ data.length ≤ w.buffer_consumer_.buffer_.length) ∧
    (data.length ≤ conf.buffer_size →
      w1.pushWaitCond data.length = true ∧ (w1.Push conf data).isSome = true) := by
  have hW := AsyncWorker.WInv_reachable conf tr w hrun
  have hcw : w.buffer_consumer_.write_pos_ = 0 := by
    simpa [AsyncWorker.consumerIdle, hpc] using hW.idle
  have hcc := hW.consCap
  have hsafe := hW.safe
  unfold AsyncWorker.ThreadEntry at hswap
  simp only [hpc] at hswap
  split at hswap
  · cases hswap
  · cases hswap
    have hws : w.buffer_consumer_.WriteableSize = w.buffer_consumer_.buffer_.length := by
      unfold Buffer.WriteableSize; omega
    have h1 : ∀ n : Nat, AsyncWorker.pushWaitCond
        { w with buffer_productor_ := (w.buffer_productor_.Swap w.buffer_consumer_).1,
                 buffer_consumer_ := (w.buffer_productor_.Swap w.buffer_consumer_).2,
                 pc := LoopPc.atCallback } n = true ↔ n ≤ w.buffer_consumer_.buffer_.length := by
      intro n
      simp [AsyncWorker.pushWaitCond, Buffer.Swap, Buffer.WriteableSize, hcw]
    have h2 : (AsyncWorker.Push conf
        { w with buffer_productor_ := (w.buffer_productor_.Swap w.buffer_consumer_).1,
                 buffer_consumer_ := (w.buffer_productor_.Swap w.buffer_consumer_).2,
                 pc := LoopPc.atCallback } data).isSome = true ↔
          data.length ≤ w.buffer_consumer_.buffer_.length := by
      rw [← h1 data.length]
      unfold AsyncWorker.Push
      simp only [hsafe, true_and]
      split <;> simp_all
    refine ⟨rfl, rfl, hcc, h1 data.length, h2, ?_⟩
    intro hlen
    exact ⟨(h1 data.length).2 (le_trans hlen hcc), h2.2 (le_trans hlen hcc)⟩

/-- Witness of the amended C7: 16-byte buffers; a 16-byte record has made one of
them grow to 48 bytes and has been flushed.  A 20-byte record does not fit the
16-byte producer side before the swap and fits the 48-byte buffer right after
it. -/
theorem AsyncWorker_swap_unblocks_fitting_Push_witness :
    AsyncWorker.Push ⟨16, 1024, 8⟩
      ⟨AsyncType.ASYNC_SAFE, false, ⟨List.replicate 16 0, 0, 0⟩,
        ⟨List.replicate 16 1 ++ List.replicate 32 0, 0, 0⟩, true, LoopPc.atLock,
        [List.replicate 16 1]⟩ (List.replicate 20 2) = none ∧
    (AsyncWorker.Push ⟨16, 1024, 8⟩
      ⟨AsyncType.ASYNC_SAFE, false, ⟨List.replicate 16 1 ++ List.replicate 32 0, 0, 0⟩,
        ⟨List.replicate 16 0, 0, 0⟩, true, LoopPc.atCallback, [List.replicate 16 1]⟩
      (List.replicate 20 2)).isSome = true :=
  ⟨by decide,
    (AsyncWorker_swap_unblocks_fitting_Push ⟨16, 1024, 8⟩
      [.push (List.replicate 16 1), .loop, .loop, .loop, .loop]
      ⟨AsyncType.ASYNC_SAFE, false, ⟨List.replicate 16 0, 0, 0⟩,
        ⟨List.replicate 16 1 ++ List.replicate 32 0, 0, 0⟩, true, LoopPc.atLock,
        [List.replicate 16 1]⟩
      ⟨AsyncType.ASYNC_SAFE, false, ⟨List.replicate 16 1 ++ List.replicate 32 0, 0, 0⟩,
        ⟨List.replicate 16 0, 0, 0⟩, true, LoopPc.atCallback, [List.replicate 16 1]⟩
      (List.replicate 20 2) (by decide) (by decide) (by decide)).2.2.2.2.1.2 (by decide)⟩

/-- C8, the code on a second `Stop()`: for a freshly constructed worker the first
`Stop()` returns with the thread finished and no longer joinable, and the second
`Stop()` calls `join` on that thread again, which throws `std::system_error`. -/
theorem AsyncWorker_second_Stop_throws (conf : JsonData) (t : AsyncType) :
    ∃ w1, (AsyncWorker.init conf t).Stop = Except.ok w1 ∧ w1.pc = LoopPc.exited ∧
      w1.thread_joinable = false ∧
      w1.Stop = Except.error (StdException.system_error "Invalid argument") := by
  refine ⟨_, rfl, ?_, rfl, rfl⟩
  exact AsyncWorker.runThreadEntry_exits _ rfl

end mylog

/-! ## The logger -/

namespace mylog

/-- C9: `serialize` calls `tp->enqueue` with the formatted record exactly when
the level is `ERROR` or `FATAL`.  An open pool then takes the record as a new
task, a stopped pool rejects it and `thread pool closed` is printed; so the pool
or the output has changed if and only if the level is `ERROR` or `FATAL`, and
for `DEBUG`, `INFO` and `WARN` both are left as they were. -/
theorem AsyncLogger_serialize_backs_up_severe_levels
    (format : LogLevel → String → Nat → String → String → List Byte)
    (start_backup : List Byte → Except StdException Unit)
    (l : AsyncLogger) (level : LogLevel) (file : String) (line : Nat) (ret : String) :
    (AsyncLogger.serialize format start_backup l level file line ret).1.tp.accepted
      = l.tp.accepted ++
        (if (level = LogLevel.ERROR ∨ level = LogLevel.FATAL) ∧ l.tp.stop = false
          then [format level file line l.logger_name_ ret] else []) ∧
    ((level = LogLevel.ERROR ∨ level = LogLevel.FATAL) ↔
      ((AsyncLogger.serialize format start_backup l level file line ret).1.tp.accepted.length
          = l.tp.accepted.length + 1 ∨
        (AsyncLogger.serialize format start_backup l level file line ret).1.cout
          = l.cout ++ ["thread pool closed"])) ∧
    ((level = LogLevel.DEBUG ∨ level = LogLevel.INFO ∨ level = LogLevel.WARN) ↔
      ((AsyncLogger.serialize format start_backup l level file line ret).1.tp = l.tp ∧
        (AsyncLogger.serialize format start_backup l level file line ret).1.cout = l.cout)) := by
  unfold AsyncLogger.serialize AsyncLogger.tryBackup
  generalize format level file line l.logger_name_ ret = data
  cases hb : start_backup data with
  | error e =>
    cases hst : l.tp.stop <;> cases level <;> cases e <;>
      simp [AsyncLogger.Flush, ThreadPool.enqueue, ThreadPool.runTasks, ThreadPool.accepted,
        hst, hb, StdException.isRuntimeError] <;>
      (refine ⟨by omega, fun h => ?_⟩
       have h2 := congrArg (fun t => (ThreadPool.accepted t).length) h
       simp [ThreadPool.accepted] at h2)
  | ok u =>
    cases hst : l.tp.stop <;> cases level <;>
      simp [AsyncLogger.Flush, ThreadPool.enqueue, ThreadPool.runTasks, ThreadPool.accepted,
        hst, hb, StdException.isRuntimeError] <;>
      (refine ⟨by omega, fun h => ?_⟩
       have h2 := congrArg (fun t => (ThreadPool.accepted t).length) h
       simp [ThreadPool.accepted] at h2)

/-- Witness of C9: an `ERROR` record reaches an open pool, a `WARN` record does
not. -/
theorem AsyncLogger_serialize_backs_up_severe_levels_witness :
    (AsyncLogger.serialize (fun _ _ _ _ _ => [104, 105]) (fun _ => Except.ok ())
      ⟨"default", ⟨false, [], []⟩, [], []⟩ LogLevel.ERROR "a.cpp" 7 "hi").1.tp.accepted
      = [[104, 105]] ∧
    (AsyncLogger.serialize (fun _ _ _ _ _ => [104, 105]) (fun _ => Except.ok ())
      ⟨"default", ⟨false, [], []⟩, [], []⟩ LogLevel.WARN "a.cpp" 7 "hi").1.tp
      = ⟨false, [], []⟩ :=
  ⟨(AsyncLogger_serialize_backs_up_severe_levels (fun _ _ _ _ _ => [104, 105])
      (fun _ => Except.ok ()) ⟨"default", ⟨false, [], []⟩, [], []⟩ LogLevel.ERROR "a.cpp" 7
      "hi").1,
    ((AsyncLogger_serialize_backs_up_severe_levels (fun _ _ _ _ _ => [104, 105])
      (fun _ => Except.ok ()) ⟨"default", ⟨false, [], []⟩, [], []⟩ LogLevel.WARN "a.cpp" 7
      "hi").2.2.1 (Or.inr (Or.inr rfl))).1⟩

/-- C10: for every level and every state of the pool, stopped or not, `serialize`
lets no exception out and calls the worker's `Push` exactly once, with the
formatted record, provided the backup task itself raises nothing outside
`std::runtime_error` when it is run. -/
theorem AsyncLogger_serialize_pushes_once
    (format : LogLevel → String → Nat → String → String → List Byte)
    (start_backup : List Byte → Except StdException Unit)
    (l : AsyncLogger) (level : LogLevel) (file : String) (line : Nat) (ret : String)
    (htask : ∀ e, start_backup (format level file line l.logger_name_ ret) = Except.error e →
      e.isRuntimeError = true) :
    (AsyncLogger.serialize format start_backup l level file line ret).2 = none ∧
    (AsyncLogger.serialize format start_backup l level file line ret).1.pushed
      = l.pushed ++ [format level file line l.logger_name_ ret] := by
  unfold AsyncLogger.serialize AsyncLogger.tryBackup
  revert htask
  generalize format level file line l.logger_name_ ret = data
  intro htask
  cases hb : start_backup data with
  | error e =>
    have hr := htask e hb
    cases hst : l.tp.stop <;> cases level <;> cases e <;>
      simp [AsyncLogger.Flush, ThreadPool.enqueue, ThreadPool.runTasks, hst, hb,
        StdException.isRuntimeError] at hr ⊢
  | ok u =>
    cases hst : l.tp.stop <;> cases level <;>
      simp [AsyncLogger.Flush, ThreadPool.enqueue, ThreadPool.runTasks, hst, hb,
        StdException.isRuntimeError]

/-- Witness of C10: a `FATAL` record and a stopped pool. -/
theorem AsyncLogger_serialize_pushes_once_witness :
    (AsyncLogger.serialize (fun _ _ _ _ _ => [104, 105]) (fun _ => Except.ok ())
      ⟨"default", ⟨true, [], []⟩, [], []⟩ LogLevel.FATAL "a.cpp" 7 "hi").2 = none ∧
    (AsyncLogger.serialize (fun _ _ _ _ _ => [104, 105]) (fun _ => Except.ok ())
      ⟨"default", ⟨true, [], []⟩, [], []⟩ LogLevel.FATAL "a.cpp" 7 "hi").1.pushed
      = [] ++ [[104, 105]] :=
  AsyncLogger_serialize_pushes_once (fun _ _ _ _ _ => [104, 105]) (fun _ => Except.ok ())
    ⟨"default", ⟨true, [], []⟩, [], []⟩ LogLevel.FATAL "a.cpp" 7 "hi"
    (by intro e h; cases h)

end mylog

/-! ## The registry -/

namespace mylog

theorem umapFind_append_of_none {V : Type} (m : List (String × V)) (kv : String × V) (n : String)
    (h : umapFind m n = none) :
    umapFind (m ++ [kv]) n = if kv.1 = n then some kv.2 else none := by
  unfold umapFind at h ⊢
  have h1 : List.find? (fun kv => kv.1 == n) m = none := by
    cases hf : List.find? (fun kv => kv.1 == n) m with
    | none => rfl
    | some x => simp [hf] at h
  rw [List.find?_append, h1]
  by_cases hk : kv.1 = n
  · have hb : (kv.1 == n) = true := by simpa using hk
    simp [List.find?, hb, hk]
  · have hb : (kv.1 == n) = false := by simpa using hk
    simp [List.find?, hb, hk]

theorem umapFind_append_of_some {V : Type} (m : List (String × V)) (kv : String × V) (n : String)
    (v : V) (h : umapFind m n = some v) : umapFind (m ++ [kv]) n = some v := by
  unfold umapFind at h ⊢
  cases hf : List.find? (fun kv => kv.1 == n) m with
  | none => simp [hf] at h
  | some x =>
    rw [List.find?_append, hf]
    simpa [hf] using h

namespace LoggerManager

theorem init_eq :
    LoggerManager.init = some
      { default_logger_ := ⟨"default", [FlushKind.StdoutFlush], AsyncType.ASYNC_SAFE⟩,
        loggers_ := [("default", ⟨"default", [FlushKind.StdoutFlush], AsyncType.ASYNC_SAFE⟩)] } := by
  decide

theorem GetLogger_eq (m : LoggerManager) (n : String) :
    m.GetLogger n = umapFind m.loggers_ n := by
  unfold GetLogger
  cases umapFind m.loggers_ n <;> rfl

theorem LoggerExist_eq (m : LoggerManager) (n : String) :
    m.LoggerExist n = (m.GetLogger n).isSome := by
  rw [GetLogger_eq]
  unfold LoggerExist
  cases umapFind m.loggers_ n <;> rfl

theorem AddLogger_of_present (m : LoggerManager) (l l0 : AsyncLogger.ptr)
    (h : m.GetLogger l.Name = some l0) : m.AddLogger l = m := by
  unfold AddLogger
  rw [LoggerExist_eq, h]
  rfl

theorem GetLogger_AddLogger_of_absent (m : LoggerManager) (l : AsyncLogger.ptr) (n : String)
    (h : m.GetLogger l.Name = none) :
    (m.AddLogger l).GetLogger n = if l.Name = n then some l else m.GetLogger n := by
  have hf : umapFind m.loggers_ l.Name = none := by rw [← GetLogger_eq]; exact h
  unfold AddLogger
  rw [LoggerExist_eq, h]
  simp only [Option.isSome_none, Bool.false_eq_true, if_false]
  rw [GetLogger_eq, GetLogger_eq]
  simp only [umapInsert, hf, Option.isSome_none, Bool.false_eq_true, if_false]
  cases hn : umapFind m.loggers_ n with
  | none =>
    rw [umapFind_append_of_none _ _ _ hn]
  | some v =>
    rw [umapFind_append_of_some _ _ _ v hn]
    have : l.Name ≠ n := by
      intro he; rw [he] at hf; rw [hf] at hn; cases hn
    simp [this]

theorem default_kept (m : LoggerManager) (l : AsyncLogger.ptr) :
    (m.AddLogger l).default_logger_ = m.default_logger_ := by
  unfold AddLogger
  split <;> rfl

theorem GetLogger_AddLogger_of_some (m : LoggerManager) (l l0 : AsyncLogger.ptr) (n : String)
    (h : m.GetLogger n = some l0) : (m.AddLogger l).GetLogger n = some l0 := by
  cases hl : m.GetLogger l.Name with
  | some l1 => rw [AddLogger_of_present m l l1 hl]; exact h
  | none =>
    rw [GetLogger_AddLogger_of_absent m l n hl]
    have : l.Name ≠ n := by
      intro he; rw [he] at hl; rw [hl] at h; cases h
    simp [this, h]

theorem addAll_keeps (ls : List AsyncLogger.ptr) :
    ∀ (m : LoggerManager) (n : String) (l0 : AsyncLogger.ptr), m.GetLogger n = some l0 →
      (m.addAll ls).GetLogger n = some l0 ∧ (m.addAll ls).default_logger_ = m.default_logger_ := by
  induction ls with
  | nil => intro m n l0 h; exact ⟨h, rfl⟩
  | cons l ls ih =>
    intro m n l0 h
    have := ih (m.AddLogger l) n l0 (GetLogger_AddLogger_of_some m l l0 n h)
    simp only [addAll, List.foldl_cons] at this ⊢
    exact ⟨this.1, this.2.trans (default_kept m l)⟩

theorem addAll_absent (ls : List AsyncLogger.ptr) :
    ∀ (m : LoggerManager) (n : String), m.GetLogger n = none → (∀ l ∈ ls, l.Name ≠ n) →
      (m.addAll ls).GetLogger n = none := by
  induction ls with
  | nil => intro m n h _; exact h
  | cons l ls ih =>
    intro m n h hall
    have hl : l.Name ≠ n := hall l (List.mem_cons_self _ _)
    have h1 : (m.AddLogger l).GetLogger n = none := by
      cases hp : m.GetLogger l.Name with
      | some l1 => rw [AddLogger_of_present m l l1 hp]; exact h
      | none => rw [GetLogger_AddLogger_of_absent m l n hp]; simp [hl, h]
    have := ih (m.AddLogger l) n h1 (fun l' hl' => hall l' (List.mem_cons_of_mem _ hl'))
    simpa [addAll] using this

end LoggerManager

/-- C11: `AddLogger` of a logger whose name is registered leaves the registry as
it is, and `GetLogger` of that name still gives the earlier logger; `AddLogger`
of a logger whose name is not registered makes `GetLogger` of its name give
that logger and changes the result for no other name.  A name that is neither
in the registry nor the name of a logger added later is not found; after
construction that is every name but `default`. -/
theorem LoggerManager_AddLogger_first_wins (m : LoggerManager) (l : AsyncLogger.ptr) :
    (∀ l0, m.GetLogger l.Name = some l0 →
      m.AddLogger l = m ∧ (m.AddLogger l).GetLogger l.Name = some l0) ∧
    (m.GetLogger l.Name = none →
      (m.AddLogger l).GetLogger l.Name = some l ∧
      ∀ n, n ≠ l.Name → (m.AddLogger l).GetLogger n = m.GetLogger n) ∧
    (∀ (ls : List AsyncLogger.ptr) (n : String), m.GetLogger n = none →
      (∀ l1 ∈ ls, l1.Name ≠ n) → (m.addAll ls).GetLogger n = none) ∧
    (∃ m0, LoggerManager.init = some m0 ∧
      ∀ (ls : List AsyncLogger.ptr) (n : String), n ≠ "default" → (∀ l1 ∈ ls, l1.Name ≠ n) →
        (m0.addAll ls).GetLogger n = none) := by
  refine ⟨?_, ?_, ?_, ?_⟩
  · intro l0 h
    have := LoggerManager.AddLogger_of_present m l l0 h
    exact ⟨this, by rw [this]; exact h⟩
  · intro h
    refine ⟨by simp [LoggerManager.GetLogger_AddLogger_of_absent m l _ h], ?_⟩
    intro n hn
    rw [LoggerManager.GetLogger_AddLogger_of_absent m l n h]
    simp [Ne.symm hn]
  · intro ls n h hall
    exact LoggerManager.addAll_absent ls m n h hall
  · refine ⟨_, LoggerManager.init_eq, ?_⟩
    intro ls n hn hall
    refine LoggerManager.addAll_absent ls _ n ?_ hall
    have hb : ("default" == n) = false := by simpa using Ne.symm hn
    simp [LoggerManager.GetLogger, umapFind, List.find?, hb]

/-- Witness of C11: the constructed registry, the logger `asynclogger` added to
it, then another logger of the same name. -/
theorem LoggerManager_AddLogger_first_wins_witness :
    (LoggerManager.AddLogger
      { default_logger_ := ⟨"default", [FlushKind.StdoutFlush], AsyncType.ASYNC_SAFE⟩,
        loggers_ := [("default", ⟨"default", [FlushKind.StdoutFlush], AsyncType.ASYNC_SAFE⟩)] }
      ⟨"asynclogger", [FlushKind.RollFileFlush "./logfile/RollFile_log" 1048576],
        AsyncType.ASYNC_SAFE⟩).GetLogger "asynclogger"
      = some ⟨"asynclogger", [FlushKind.RollFileFlush "./logfile/RollFile_log" 1048576],
        AsyncType.ASYNC_SAFE⟩ ∧
    LoggerManager.AddLogger
      { default_logger_ := ⟨"default", [FlushKind.StdoutFlush], AsyncType.ASYNC_SAFE⟩,
        loggers_ := [("default", ⟨"default", [FlushKind.StdoutFlush], AsyncType.ASYNC_SAFE⟩)] }
      ⟨"default", [FlushKind.FileFlush "other.log"], AsyncType.ASYNC_UNSAFE⟩
      = { default_logger_ := ⟨"default", [FlushKind.StdoutFlush], AsyncType.ASYNC_SAFE⟩,
          loggers_ :=
            [("default", ⟨"default", [FlushKind.StdoutFlush], AsyncType.ASYNC_SAFE⟩)] } :=
  ⟨((LoggerManager_AddLogger_first_wins
      { default_logger_ := ⟨"default", [FlushKind.StdoutFlush], AsyncType.ASYNC_SAFE⟩,
        loggers_ := [("default", ⟨"default", [FlushKind.StdoutFlush], AsyncType.ASYNC_SAFE⟩)] }
      ⟨"asynclogger", [FlushKind.RollFileFlush "./logfile/RollFile_log" 1048576],
        AsyncType.ASYNC_SAFE⟩).2.1 (by decide)).1,
    ((LoggerManager_AddLogger_first_wins
      { default_logger_ := ⟨"default", [FlushKind.StdoutFlush], AsyncType.ASYNC_SAFE⟩,
        loggers_ := [("default", ⟨"default", [FlushKind.StdoutFlush], AsyncType.ASYNC_SAFE⟩)] }
      ⟨"default", [FlushKind.FileFlush "other.log"], AsyncType.ASYNC_UNSAFE⟩).1
      ⟨"default", [FlushKind.StdoutFlush], AsyncType.ASYNC_SAFE⟩ (by decide)).1⟩

/-- C12: the constructor yields a registry whose default logger is named
`default`, and after any sequence of `AddLogger` calls, loggers named `default`
among them, `GetLogger("default")` finds a logger and it is the one
`DefaultLogger()` returns, the logger the constructor built. -/
theorem LoggerManager_default_always_found :
    ∃ m0, LoggerManager.init = some m0 ∧ m0.DefaultLogger.Name = "default" ∧
      ∀ (ls : List AsyncLogger.ptr),
        (m0.addAll ls).GetLogger "default" = some (m0.addAll ls).DefaultLogger ∧
        (m0.addAll ls).DefaultLogger = m0.DefaultLogger := by
  refine ⟨_, LoggerManager.init_eq, rfl, ?_⟩
  intro ls
  have := LoggerManager.addAll_keeps ls
    { default_logger_ := ⟨"default", [FlushKind.StdoutFlush], AsyncType.ASYNC_SAFE⟩,
      loggers_ := [("default", ⟨"default", [FlushKind.StdoutFlush], AsyncType.ASYNC_SAFE⟩)] }
    "default" ⟨"default", [FlushKind.StdoutFlush], AsyncType.ASYNC_SAFE⟩ (by decide)
  refine ⟨?_, this.2⟩
  rw [this.1]
  exact congrArg some this.2.symm

end mylog

/-! ## The rolling file sink -/

namespace mylog

theorem digitVal_digitChar (m : Nat) (h : m < 10) : digitVal (Nat.digitChar m) = m := by
  interval_cases m <;> decide

theorem digitChar_ne_dash (m : Nat) (h : m < 10) : Nat.digitChar m ≠ '-' := by
  interval_cases m <;> decide

theorem toDigitsCore_acc (fuel : Nat) : ∀ (n : Nat) (ds : List Char),
    Nat.toDigitsCore 10 fuel n ds = Nat.toDigitsCore 10 fuel n [] ++ ds := by
  induction fuel with
  | zero => intro n ds; simp [Nat.toDigitsCore]
  | succ fuel ih =>
    intro n ds
    simp only [Nat.toDigitsCore]
    split
    · simp
    · rw [ih (n / 10) (_ :: ds), ih (n / 10) [_]]
      simp

theorem decode_snoc (l : List Char) (c : Char) :
    decode (l ++ [c]) = 10 * decode l + digitVal c := by
  simp [decode, List.foldl_append]

theorem decode_toDigitsCore (fuel : Nat) : ∀ n, n < fuel →
    decode (Nat.toDigitsCore 10 fuel n []) = n := by
  induction fuel with
  | zero => intro n h; omega
  | succ fuel ih =>
    intro n h
    simp only [Nat.toDigitsCore]
    split
    · rename_i h0
      have hn : n % 10 = n := by omega
      have hv := digitVal_digitChar (n % 10) (Nat.mod_lt _ (by decide))
      rw [hn] at hv
      simp [decode, hn, hv]
    · rename_i h0
      rw [toDigitsCore_acc, decode_snoc, ih (n / 10) (by omega),
        digitVal_digitChar (n % 10) (Nat.mod_lt _ (by decide))]
      omega

theorem toDigitsCore_no_dash (fuel : Nat) : ∀ (n : Nat) (ds : List Char),
    (∀ c ∈ ds, c ≠ '-') → ∀ c ∈ Nat.toDigitsCore 10 fuel n ds, c ≠ '-' := by
  induction fuel with
  | zero => intro n ds h; simpa [Nat.toDigitsCore] using h
  | succ fuel ih =>
    intro n ds h
    simp only [Nat.toDigitsCore]
    have hd : ∀ c ∈ Nat.digitChar (n % 10) :: ds, c ≠ '-' := by
      intro c hc
      rcases List.mem_cons.1 hc with rfl | hc
      · exact digitChar_ne_dash _ (Nat.mod_lt _ (by decide))
      · exact h c hc
    split
    · exact hd
    · exact ih _ _ hd

theorem to_string_data (n : Nat) : (to_string n).data = Nat.toDigits 10 n := rfl

theorem to_string_data_injective (a b : Nat) (h : (to_string a).data = (to_string b).data) :
    a = b := by
  rw [to_string_data, to_string_data] at h
  have ha := decode_toDigitsCore (a + 1) a (by omega)
  have hb := decode_toDigitsCore (b + 1) b (by omega)
  unfold Nat.toDigits at h
  rw [h] at ha
  omega

theorem to_string_no_dash (n : Nat) : ∀ c ∈ (to_string n).data, c ≠ '-' := by
  rw [to_string_data]
  exact toDigitsCore_no_dash _ _ _ (by simp)

/-- Two strings that end in a dash followed by dash-free text agree on that text. -/
theorem dash_suffix_cancel (x y a b : List Char)
    (ha : ∀ c ∈ a, c ≠ '-') (hb : ∀ c ∈ b, c ≠ '-')
    (h : x ++ '-' :: a = y ++ '-' :: b) : a = b := by
  have hr := congrArg List.reverse h
  simp only [List.reverse_append, List.reverse_cons, List.append_assoc,
    List.singleton_append] at hr
  have hta : ∀ (a x : List Char), (∀ c ∈ a, c ≠ '-') →
      List.takeWhile (fun c => c != '-') (a.reverse ++ '-' :: x) = a.reverse := by
    intro a x ha
    rw [List.takeWhile_append_of_pos]
    · simp [List.takeWhile]
    · intro c hc
      simpa using ha c (List.mem_reverse.1 hc)
  have := congrArg (List.takeWhile (fun c => c != '-')) hr
  rw [hta a _ ha, hta b _ hb] at this
  exact List.reverse_injective this

namespace RollFileFlush

theorem CreateFilename_data (s : RollFileFlush) (t : tm) :
    ∃ x, (s.CreateFilename t).1.data
      = x ++ '-' :: ((to_string s.cnt_).data ++ ['.', 'l', 'o', 'g']) := by
  refine ⟨(s.basename_ ++ to_string (t.tm_year + 1900) ++ to_string (t.tm_mon + 1)
    ++ to_string t.tm_mday ++ to_string (t.tm_hour + 1) ++ to_string (t.tm_min + 1)
    ++ to_string (t.tm_sec + 1)).data, ?_⟩
  have h1 : ("-" : String).data = ['-'] := rfl
  have h2 : (".log" : String).data = ['.', 'l', 'o', 'g'] := rfl
  simp only [CreateFilename, String.data_append, h1, h2]
  simp

/-- Names made under different counters differ, whatever the times. -/
theorem CreateFilename_cnt_injective (s s1 : RollFileFlush) (t t1 : tm)
    (h : (s.CreateFilename t).1 = (s1.CreateFilename t1).1) : s.cnt_ = s1.cnt_ := by
  obtain ⟨x, hx⟩ := CreateFilename_data s t
  obtain ⟨y, hy⟩ := CreateFilename_data s1 t1
  rw [h, hy] at hx
  have hnd : ∀ n : Nat, ∀ c ∈ (to_string n).data ++ ['.', 'l', 'o', 'g'], c ≠ '-' := by
    intro n c hc
    rcases List.mem_append.1 hc with hc | hc
    · exact to_string_no_dash n c hc
    · simp only [List.mem_cons, List.mem_singleton, List.not_mem_nil, or_false] at hc
      rcases hc with rfl | rfl | rfl | rfl <;> decide
  have := dash_suffix_cancel y x _ _ (hnd _) (hnd _) hx
  exact (to_string_data_injective _ _ (List.append_cancel_right this)).symm


/-- A write to the file at the head leaves the files after it alone when none
of them has its name. -/
theorem map_write_head (f : LogFile) (fs : List LogFile) (data : List Byte)
    (h : f.name ∉ fs.map fun g => g.name) :
    ((f :: fs).map fun g =>
        if g.name = f.name then { g with writes := g.writes ++ [data] } else g)
      = { name := f.name, writes := f.writes ++ [data] } :: fs := by
  simp only [List.map_cons, if_true]
  congr 1
  have : ∀ g ∈ fs, (if g.name = f.name then { g with writes := g.writes ++ [data] } else g) = g := by
    intro g hg
    have hne : g.name ≠ f.name := by
      intro he
      exact h (List.mem_map.2 ⟨g, hg, he⟩)
    simp [hne]
  rw [List.map_congr_left this]
  simp

/-- The name `CreateFilename` makes next belongs to no file there is. -/
theorem next_name_fresh (s : RollFileFlush) (t : tm) (h : s.Wf) :
    (s.CreateFilename t).1 ∉ s.files.map fun f => f.name := by
  intro hm
  obtain ⟨f, hf, hfn⟩ := List.mem_map.1 hm
  obtain ⟨t1, k, hk, hname⟩ := h.2.2.2 f hf
  have hfn' : f.name = (s.CreateFilename t).1 := hfn
  rw [hname] at hfn'
  have := CreateFilename_cnt_injective _ _ _ _ hfn'
  simp only at this
  omega

theorem fwrite_of_some (s : RollFileFlush) (nm : String) (data : List Byte)
    (h : s.fs_ = some nm) :
    s.fwrite data = { s with files := s.files.map fun f =>
      if f.name = nm then { f with writes := f.writes ++ [data] } else f } := by
  unfold fwrite
  rw [h]

/-- The state a `Flush` that opens a file leaves. -/
theorem Flush_of_open (s : RollFileFlush) (t : tm) (data : List Byte) (h : s.Wf)
    (hc : s.fs_ = none ∨ s.max_size_ ≤ s.cur_size_) :
    s.Flush t data =
      { cnt_ := s.cnt_ + 1, cur_size_ := data.length, max_size_ := s.max_size_,
        basename_ := s.basename_, fs_ := some (s.CreateFilename t).1,
        files := ⟨(s.CreateFilename t).1, [data]⟩ :: s.files } := by
  have hfresh := next_name_fresh s t h
  have hany : (s.files.any fun f => f.name == (s.CreateFilename t).1) = false := by
    rw [Bool.eq_false_iff]
    intro ha
    obtain ⟨f, hf, hfe⟩ := List.any_eq_true.1 ha
    exact hfresh (List.mem_map.2 ⟨f, hf, by simpa using hfe⟩)
  have hinit : s.InitLogFile t =
      { cnt_ := s.cnt_ + 1, cur_size_ := 0, max_size_ := s.max_size_,
        basename_ := s.basename_, fs_ := some (s.CreateFilename t).1,
        files := ⟨(s.CreateFilename t).1, []⟩ :: s.files } := by
    unfold InitLogFile
    rw [if_pos hc]
    by_cases hfs : s.fs_ = none
    · simp only [hfs, ne_eq, not_true_eq_false, if_false]
      show _ = _
      simp only [CreateFilename, fopen] at hany ⊢
      simp only [hany, Bool.false_eq_true, if_false]
    · simp only [hfs, ne_eq, not_false_eq_true, if_true]
      show _ = _
      simp only [CreateFilename, fopen] at hany ⊢
      simp only [hany, Bool.false_eq_true, if_false]
  have hw := map_write_head ⟨(s.CreateFilename t).1, []⟩ s.files data hfresh
  unfold Flush
  rw [hinit]
  dsimp only
  rw [fwrite_of_some _ (s.CreateFilename t).1 _ rfl]
  simp only [List.nil_append] at hw
  simp only [hw, Nat.zero_add]

/-- The state a `Flush` that keeps the file leaves. -/
theorem Flush_of_keep (s : RollFileFlush) (t : tm) (data : List Byte) (h : s.Wf)
    (hc : ¬(s.fs_ = none ∨ s.max_size_ ≤ s.cur_size_)) (f : LogFile) (fs : List LogFile)
    (hf : s.files = f :: fs) :
    s.Flush t data =
      { s with cur_size_ := s.cur_size_ + data.length,
               files := ⟨f.name, f.writes ++ [data]⟩ :: fs } := by
  have hinit : s.InitLogFile t = s := by
    unfold InitLogFile; rw [if_neg hc]
  obtain ⟨hcur, _⟩ := h.2.1 f fs hf
  have hnd := h.2.2.1
  rw [hf] at hnd
  simp only [List.map_cons, List.nodup_cons] at hnd
  have hw := map_write_head f fs data hnd.1
  unfold Flush
  rw [hinit]
  dsimp only
  rw [fwrite_of_some _ f.name _ hcur]
  simp only [hf, hw]

/-- What one `Flush` does, by whether it opens a file. -/
theorem Flush_cases (s : RollFileFlush) (t : tm) (data : List Byte) (h : s.Wf) :
    (s.Flush t data).max_size_ = s.max_size_ ∧
    (s.Flush t data).basename_ = s.basename_ ∧
    ((s.fs_ = none ∨ s.max_size_ ≤ s.cur_size_) →
      (s.Flush t data).files = ⟨(s.CreateFilename t).1, [data]⟩ :: s.files ∧
      (s.Flush t data).fs_ = some (s.CreateFilename t).1 ∧
      (s.Flush t data).cur_size_ = data.length ∧
      (s.Flush t data).cnt_ = s.cnt_ + 1) ∧
    (¬(s.fs_ = none ∨ s.max_size_ ≤ s.cur_size_) → ∀ f fs, s.files = f :: fs →
      (s.Flush t data).files = ⟨f.name, f.writes ++ [data]⟩ :: fs ∧
      (s.Flush t data).fs_ = s.fs_ ∧
      (s.Flush t data).cur_size_ = s.cur_size_ + data.length ∧
      (s.Flush t data).cnt_ = s.cnt_) := by
  by_cases hc : s.fs_ = none ∨ s.max_size_ ≤ s.cur_size_
  · rw [Flush_of_open s t data h hc]
    exact ⟨rfl, rfl, fun _ => ⟨rfl, rfl, rfl, rfl⟩, fun hn => absurd hc hn⟩
  · have hfs : s.fs_ ≠ none := fun hq => hc (Or.inl hq)
    have hne : s.files ≠ [] := fun hq => hfs (h.1.2 hq)
    obtain ⟨f, fs, hf⟩ := List.exists_cons_of_ne_nil hne
    rw [Flush_of_keep s t data h hc f fs hf]
    refine ⟨rfl, rfl, fun hq => absurd hq hc, ?_⟩
    intro _ f1 fs1 hf1
    rw [hf] at hf1
    cases hf1
    exact ⟨rfl, rfl, rfl, rfl⟩

theorem init_Wf (basename : String) (M : Nat) : (init basename M).Wf := by
  refine ⟨by simp [init], ?_, by simp [init], ?_⟩
  · intro f fs h; simp [init] at h
  · intro f hf; simp [init] at hf

theorem Wf_Flush (s : RollFileFlush) (t : tm) (data : List Byte) (h : s.Wf) :
    (s.Flush t data).Wf := by
  obtain ⟨hmax, hbase, hopen, hkeep⟩ := Flush_cases s t data h
  have hfresh := next_name_fresh s t h
  obtain ⟨h0, h1, h2, h3⟩ := h
  by_cases hc : s.fs_ = none ∨ s.max_size_ ≤ s.cur_size_
  · obtain ⟨hfiles, hfs, hcur, hcnt⟩ := hopen hc
    refine ⟨?_, ?_, ?_, ?_⟩
    · rw [hfs, hfiles]; simp
    · intro f fs hf
      rw [hfiles] at hf
      cases hf
      exact ⟨hfs, by simp [hcur]⟩
    · rw [hfiles]
      simp only [List.map_cons, List.nodup_cons]
      exact ⟨hfresh, h2⟩
    · intro f hf
      rw [hfiles] at hf
      rw [hcnt]
      rcases List.mem_cons.1 hf with rfl | hf
      · exact ⟨t, s.cnt_, by omega, by simp only [CreateFilename, hbase]⟩
      · obtain ⟨t1, k, hk, hn⟩ := h3 f hf
        exact ⟨t1, k, by omega, by rw [hn]; simp only [CreateFilename, hbase]⟩
  · have hfs : s.fs_ ≠ none := fun hq => hc (Or.inl hq)
    have hne : s.files ≠ [] := fun hq => hfs (h0.2 hq)
    obtain ⟨f, fs, hf⟩ := List.exists_cons_of_ne_nil hne
    obtain ⟨hfiles, hfs', hcur, hcnt⟩ := hkeep hc f fs hf
    obtain ⟨hsf, hcf⟩ := h1 f fs hf
    refine ⟨?_, ?_, ?_, ?_⟩
    · rw [hfs', hfiles]; simp [hfs]
    · intro f' fs' hf'
      rw [hfiles] at hf'
      cases hf'
      exact ⟨by rw [hfs', hsf], by simp [hcur, hcf]⟩
    · rw [hfiles]
      rw [hf] at h2
      simpa using h2
    · intro f' hf'
      rw [hfiles] at hf'
      rw [hcnt]
      rcases List.mem_cons.1 hf' with rfl | hf'
      · obtain ⟨t1, k, hk, hn⟩ := h3 f (by rw [hf]; exact List.mem_cons_self _ _)
        exact ⟨t1, k, hk, by simp only [hn, CreateFilename, hbase]⟩
      · obtain ⟨t1, k, hk, hn⟩ := h3 f' (by rw [hf]; exact List.mem_cons_of_mem _ hf')
        exact ⟨t1, k, hk, by simp only [hn, CreateFilename, hbase]⟩

theorem Within_Flush (s : RollFileFlush) (t : tm) (data : List Byte) (h : s.Wf)
    (hw : s.Within) (hM : 0 < s.max_size_) : (s.Flush t data).Within := by
  obtain ⟨hmax, _, hopen, hkeep⟩ := Flush_cases s t data h
  obtain ⟨h0, h1, _, _⟩ := h
  unfold Within at hw ⊢
  rw [hmax]
  by_cases hc : s.fs_ = none ∨ s.max_size_ ≤ s.cur_size_
  · obtain ⟨hfiles, _, _, _⟩ := hopen hc
    intro f hf k hk
    rw [hfiles] at hf
    rcases List.mem_cons.1 hf with rfl | hf
    · simp only [List.length_singleton, Nat.lt_one_iff] at hk
      subst hk
      simpa using hM
    · exact hw f hf k hk
  · have hfs : s.fs_ ≠ none := fun hq => hc (Or.inl hq)
    have hlt : s.cur_size_ < s.max_size_ := by
      by_contra hq; exact hc (Or.inr (Nat.le_of_not_lt hq))
    have hne : s.files ≠ [] := fun hq => hfs (h0.2 hq)
    obtain ⟨f, fs, hf⟩ := List.exists_cons_of_ne_nil hne
    obtain ⟨hfiles, _, _, _⟩ := hkeep hc f fs hf
    obtain ⟨_, hcf⟩ := h1 f fs hf
    intro f' hf' k hk
    rw [hfiles] at hf'
    rcases List.mem_cons.1 hf' with rfl | hf'
    · simp only [List.length_append, List.length_singleton] at hk
      by_cases hk2 : k < f.writes.length
      · rw [List.take_append_of_le_length (Nat.le_of_lt hk2)]
        exact hw f (by rw [hf]; exact List.mem_cons_self _ _) k hk2
      · have : k = f.writes.length := by omega
        subst this
        simp only [List.take_left']
        rw [← hcf]; exact hlt
    · exact hw f' (by rw [hf]; exact List.mem_cons_of_mem _ hf') k hk


theorem flushAll_snoc (s : RollFileFlush) (calls : List (tm × List Byte)) (c : tm × List Byte) :
    s.flushAll (calls ++ [c]) = (s.flushAll calls).Flush c.1 c.2 := by
  simp [flushAll, List.foldl_append]

theorem totalLen_snoc (calls : List (tm × List Byte)) (c : tm × List Byte) :
    totalLen (calls ++ [c]) = totalLen calls + c.2.length := by
  simp [totalLen]

/-- After a sequence of `Flush` calls on a new object. -/
theorem flushAll_init (basename : String) (M : Nat) (calls : List (tm × List Byte)) :
    ((init basename M).flushAll calls).max_size_ = M ∧
    ((init basename M).flushAll calls).Wf ∧
    (0 < M → ((init basename M).flushAll calls).Within) ∧
    (((init basename M).flushAll calls).fs_ = none ↔ calls = []) ∧
    (calls ≠ [] → 1 ≤ ((init basename M).flushAll calls).files.length) ∧
    (((init basename M).flushAll calls).files.length ≤ 1 →
      ((init basename M).flushAll calls).cur_size_ = totalLen calls) := by
  induction calls using List.reverseRecOn with
  | nil =>
    refine ⟨rfl, init_Wf basename M, ?_, by simp [flushAll, init], by simp, ?_⟩
    · intro _ f hf; simp [flushAll, init] at hf
    · intro _; rfl
  | append_singleton calls c ih =>
    obtain ⟨ihmax, ihwf, ihwithin, ihfs, ihlen, ihcur⟩ := ih
    rw [flushAll_snoc, totalLen_snoc]
    obtain ⟨hmax, _, hopen, hkeep⟩ :=
      Flush_cases ((init basename M).flushAll calls) c.1 c.2 ihwf
    have hwf := Wf_Flush _ c.1 c.2 ihwf
    refine ⟨hmax.trans ihmax, hwf, ?_, ?_, ?_, ?_⟩
    · intro hM
      exact Within_Flush _ c.1 c.2 ihwf (ihwithin hM) (by rw [ihmax]; exact hM)
    · constructor
      · intro hn
        have := hwf.1.1 hn
        by_cases hc : ((init basename M).flushAll calls).fs_ = none ∨
            ((init basename M).flushAll calls).max_size_
              ≤ ((init basename M).flushAll calls).cur_size_
        · rw [(hopen hc).1] at this; cases this
        · have hfs : ((init basename M).flushAll calls).fs_ ≠ none := fun hq => hc (Or.inl hq)
          obtain ⟨f, fs, hf⟩ := List.exists_cons_of_ne_nil (fun hq => hfs (ihwf.1.2 hq))
          rw [(hkeep hc f fs hf).1] at this; cases this
      · intro hn; simp at hn
    · intro _
      by_cases hc : ((init basename M).flushAll calls).fs_ = none ∨
          ((init basename M).flushAll calls).max_size_
            ≤ ((init basename M).flushAll calls).cur_size_
      · rw [(hopen hc).1]; simp
      · have hfs : ((init basename M).flushAll calls).fs_ ≠ none := fun hq => hc (Or.inl hq)
        obtain ⟨f, fs, hf⟩ := List.exists_cons_of_ne_nil (fun hq => hfs (ihwf.1.2 hq))
        rw [(hkeep hc f fs hf).1]
        simp
    · intro hle
      by_cases hc : ((init basename M).flushAll calls).fs_ = none ∨
          ((init basename M).flushAll calls).max_size_
            ≤ ((init basename M).flushAll calls).cur_size_
      · obtain ⟨hfiles, _, hcur, _⟩ := hopen hc
        rw [hfiles] at hle
        simp only [List.length_cons] at hle
        have hnil : ((init basename M).flushAll calls).files = [] :=
          List.eq_nil_of_length_eq_zero (by omega)
        have hcalls : calls = [] := ihfs.1 (ihwf.1.2 hnil)
        rw [hcur, hcalls]; simp [totalLen]
      · have hfs : ((init basename M).flushAll calls).fs_ ≠ none := fun hq => hc (Or.inl hq)
        obtain ⟨f, fs, hf⟩ := List.exists_cons_of_ne_nil (fun hq => hfs (ihwf.1.2 hq))
        obtain ⟨hfiles, _, hcur, _⟩ := hkeep hc f fs hf
        rw [hfiles] at hle
        have hle2 : ((init basename M).flushAll calls).files.length ≤ 1 := by
          rw [hf]; simpa using hle
        rw [hcur, ihcur hle2]

/-- While the calls made so far total fewer than `M` bytes, one more `Flush` still
leaves a single file. -/
theorem one_file_below_max (basename : String) (M : Nat) (pre : List (tm × List Byte)) :
    ∀ c : tm × List Byte, totalLen pre < M →
      ((init basename M).flushAll (pre ++ [c])).files.length ≤ 1 := by
  induction pre using List.reverseRecOn with
  | nil =>
    intro c _
    obtain ⟨_, _, hopen, _⟩ := Flush_cases (init basename M) c.1 c.2 (init_Wf basename M)
    have hfl : (init basename M).flushAll ([] ++ [c]) = (init basename M).Flush c.1 c.2 := rfl
    rw [hfl, (hopen (Or.inl rfl)).1]; simp [init]
  | append_singleton pre c1 ih =>
    intro c hlt
    rw [totalLen_snoc] at hlt
    have h1 := ih c1 (by omega)
    obtain ⟨hmax, hwf, _, hfs, hlen, hcur⟩ := flushAll_init basename M (pre ++ [c1])
    have hcs := hcur h1
    rw [totalLen_snoc] at hcs
    rw [flushAll_snoc]
    obtain ⟨_, _, _, hkeep⟩ :=
      Flush_cases ((init basename M).flushAll (pre ++ [c1])) c.1 c.2 hwf
    have hc : ¬(((init basename M).flushAll (pre ++ [c1])).fs_ = none ∨
        ((init basename M).flushAll (pre ++ [c1])).max_size_
          ≤ ((init basename M).flushAll (pre ++ [c1])).cur_size_) := by
      rintro (hq | hq)
      · have := hfs.1 hq; simp at this
      · rw [hmax, hcs] at hq; omega
    have hpos := hlen (by simp)
    obtain ⟨f, fs, hf⟩ := List.exists_cons_of_ne_nil
      (List.ne_nil_of_length_pos (Nat.lt_of_lt_of_le Nat.zero_lt_one hpos))
    rw [(hkeep hc f fs hf).1]
    rw [hf] at h1
    simpa using h1

end RollFileFlush

/-- C13, the code at a failing input: a file opened at 23:59:59 on 31 December
2024 by a sink with base name `log`.  `CreateFilename` appends `tm_hour + 1`,
`tm_min + 1` and `tm_sec + 1`, so the name carries 24, 60, 60 where the claim has
the hour, minute and second 23, 59, 59.  The counter is as claimed: the first
file ends in `-1.log`, the file of the first roll in `-2.log`. -/
theorem RollFileFlush_CreateFilename_adds_one :
    ((RollFileFlush.init "log" 1024).CreateFilename
        { tm_sec := 59, tm_min := 59, tm_hour := 23, tm_mday := 31, tm_mon := 11,
          tm_year := 124 }).1 = "log20241231246060-1.log" ∧
    ((RollFileFlush.init "log" 1024).CreateFilename
        { tm_sec := 59, tm_min := 59, tm_hour := 23, tm_mday := 31, tm_mon := 11,
          tm_year := 124 }).1 ≠ "log20241231235959-1.log" ∧
    (((RollFileFlush.init "log" 4).flushAll
        [({ tm_sec := 30, tm_min := 20, tm_hour := 10, tm_mday := 5, tm_mon := 2,
            tm_year := 124 }, [1, 2, 3, 4, 5]),
         ({ tm_sec := 31, tm_min := 20, tm_hour := 10, tm_mday := 5, tm_mon := 2,
            tm_year := 124 }, [6])]).files.map fun f => f.name)
      = ["log202435112132-2.log", "log202435112131-1.log"] := by
  decide

/-- C14, the claim as stated fails: maximum size 10, a `Flush` of 3 bytes and a
`Flush` of 20 bytes.  The two calls total 23 bytes, more than 10, and there is
one output file, holding both writes: the size is tested before the write, not
after it. -/
theorem RollFileFlush_one_file_past_max :
    RollFileFlush.totalLen
      [((⟨0, 0, 0, 1, 0, 124⟩ : tm), List.replicate 3 1),
       ((⟨1, 0, 0, 1, 0, 124⟩ : tm), List.replicate 20 2)] = 23 ∧
    ((RollFileFlush.init "log" 10).flushAll
      [((⟨0, 0, 0, 1, 0, 124⟩ : tm), List.replicate 3 1),
       ((⟨1, 0, 0, 1, 0, 124⟩ : tm), List.replicate 20 2)]).files
      = [⟨"log202411111-1.log", [List.replicate 3 1, List.replicate 20 2]⟩] := by
  decide

/-- C14 as amended: after two or more `Flush` calls on a new sink with maximum
size `M`, the output files have names that differ from one another, and there
is more than one of them exactly when the calls before the last one total at
least `M` bytes. -/
theorem RollFileFlush_rolls_once_max_reached (basename : String) (M : Nat)
    (pre : List (tm × List Byte)) (c : tm × List Byte) (hpre : pre ≠ []) :
    (((RollFileFlush.init basename M).flushAll (pre ++ [c])).files.map fun f => f.name).Nodup ∧
    (2 ≤ ((RollFileFlush.init basename M).flushAll (pre ++ [c])).files.length ↔
      M ≤ RollFileFlush.totalLen pre) := by
  refine ⟨(RollFileFlush.flushAll_init basename M (pre ++ [c])).2.1.2.2.1, ?_⟩
  constructor
  · intro h2
    by_contra hlt
    have := RollFileFlush.one_file_below_max basename M pre c (Nat.lt_of_not_le hlt)
    omega
  · intro hge
    obtain ⟨hmax, hwf, _, hfs, hlen, hcur⟩ := RollFileFlush.flushAll_init basename M pre
    have hpos := hlen hpre
    rw [RollFileFlush.flushAll_snoc]
    obtain ⟨_, _, hopen, hkeep⟩ :=
      RollFileFlush.Flush_cases ((RollFileFlush.init basename M).flushAll pre) c.1 c.2 hwf
    by_cases hc : ((RollFileFlush.init basename M).flushAll pre).fs_ = none ∨
        ((RollFileFlush.init basename M).flushAll pre).max_size_
          ≤ ((RollFileFlush.init basename M).flushAll pre).cur_size_
    · rw [(hopen hc).1]; simp only [List.length_cons]; omega
    · obtain ⟨f, fs, hf⟩ := List.exists_cons_of_ne_nil
        (List.ne_nil_of_length_pos (Nat.lt_of_lt_of_le Nat.zero_lt_one hpos))
      rw [(hkeep hc f fs hf).1]
      by_cases hle : ((RollFileFlush.init basename M).flushAll pre).files.length ≤ 1
      · exfalso
        apply hc
        right
        rw [hmax, hcur hle]; exact hge
      · rw [hf] at hle
        simp only [List.length_cons] at hle ⊢
        omega

/-- Witness of the amended C14: maximum size 10, a `Flush` of 12 bytes, then one
of a single byte. -/
theorem RollFileFlush_rolls_once_max_reached_witness :
    2 ≤ ((RollFileFlush.init "log" 10).flushAll
      ([((⟨0, 0, 0, 1, 0, 124⟩ : tm), List.replicate 12 1)]
        ++ [((⟨1, 0, 0, 1, 0, 124⟩ : tm), [2])])).files.length :=
  ((RollFileFlush_rolls_once_max_reached "log" 10
    [((⟨0, 0, 0, 1, 0, 124⟩ : tm), List.replicate 12 1)] ((⟨1, 0, 0, 1, 0, 124⟩ : tm), [2])
    (List.cons_ne_nil _ _)).2).2 (by decide)

/-- C15: a new sink with maximum size `M > 0`, after any sequence of `Flush`
calls.  The output files have names that differ from one another; the stream is
open on the file created last and `cur_size_` is the number of bytes written to
it; every write to every file went in while the file held fewer than `M` bytes,
so a file exceeds `M` by its last write only; and once `cur_size_` has reached
`M` the next `Flush` creates a file under a name no file had, and writes
there. -/
theorem RollFileFlush_files_within_max (basename : String) (M : Nat)
    (calls : List (tm × List Byte)) (hM : 0 < M) :
    (((RollFileFlush.init basename M).flushAll calls).files.map fun f => f.name).Nodup ∧
    (∀ f fs, ((RollFileFlush.init basename M).flushAll calls).files = f :: fs →
      ((RollFileFlush.init basename M).flushAll calls).fs_ = some f.name ∧
      ((RollFileFlush.init basename M).flushAll calls).cur_size_ = f.writes.flatten.length) ∧
    (∀ f ∈ ((RollFileFlush.init basename M).flushAll calls).files, ∀ k, k < f.writes.length →
      (f.writes.take k).flatten.length < M) ∧
    (∀ (t : tm) (data : List Byte), M ≤ ((RollFileFlush.init basename M).flushAll calls).cur_size_ →
      ∃ nm, nm ∉ (((RollFileFlush.init basename M).flushAll calls).files.map fun f => f.name) ∧
        (((RollFileFlush.init basename M).flushAll calls).Flush t data).fs_ = some nm ∧
        (((RollFileFlush.init basename M).flushAll calls).Flush t data).files
          = ⟨nm, [data]⟩ :: ((RollFileFlush.init basename M).flushAll calls).files) := by
  obtain ⟨hmax, hwf, hwithin, _, _, _⟩ := RollFileFlush.flushAll_init basename M calls
  refine ⟨hwf.2.2.1, hwf.2.1, ?_, ?_⟩
  · intro f hf k hk
    have := hwithin hM f hf k hk
    rwa [hmax] at this
  · intro t data hge
    obtain ⟨_, _, hopen, _⟩ :=
      RollFileFlush.Flush_cases ((RollFileFlush.init basename M).flushAll calls) t data hwf
    obtain ⟨hfiles, hfs, _, _⟩ := hopen (Or.inr (by rw [hmax]; exact hge))
    exact ⟨_, RollFileFlush.next_name_fresh _ t hwf, hfs, hfiles⟩

/-- Witness of C15: maximum size 4 and one `Flush` of 5 bytes; the next `Flush`
creates the second file. -/
theorem RollFileFlush_files_within_max_witness :
    0 < 4 ∧
    ∃ nm, nm ∉ (((RollFileFlush.init "log" 4).flushAll
          [((⟨0, 0, 0, 1, 0, 124⟩ : tm), [1, 2, 3, 4, 5])]).files.map fun f => f.name) ∧
      (((RollFileFlush.init "log" 4).flushAll
          [((⟨0, 0, 0, 1, 0, 124⟩ : tm), [1, 2, 3, 4, 5])]).Flush ⟨1, 0, 0, 1, 0, 124⟩ [6]).fs_
        = some nm ∧
      (((RollFileFlush.init "log" 4).flushAll
          [((⟨0, 0, 0, 1, 0, 124⟩ : tm), [1, 2, 3, 4, 5])]).Flush ⟨1, 0, 0, 1, 0, 124⟩ [6]).files
        = ⟨nm, [[6]]⟩ :: ((RollFileFlush.init "log" 4).flushAll
          [((⟨0, 0, 0, 1, 0, 124⟩ : tm), [1, 2, 3, 4, 5])]).files :=
  ⟨by decide,
    (RollFileFlush_files_within_max "log" 4 [((⟨0, 0, 0, 1, 0, 124⟩ : tm), [1, 2, 3, 4, 5])]
      (by decide)).2.2.2 ⟨1, 0, 0, 1, 0, 124⟩ [6] (by decide)⟩

end mylog

/-! ## Cursors, growth and swap -/

namespace mylog

/-- C16, the code at a failing input: a fresh 4-byte buffer, empty, and `Push`
of 20 bytes.  `ToBeEnough` leaves 12 bytes of storage, `std::copy` runs past
them and `Push` is undefined, so nothing is left for `MoveReadPos(20)` to act
on; the same holds for one byte pushed into a buffer of size 0.  With 3 bytes,
which fit, the sequence does what the claim says: the buffer is empty after
`MoveReadPos(3)`, and `Reset` zeroes the cursors and keeps the storage. -/
theorem Buffer_Push_overrun_before_MoveReadPos :
    (Buffer.init ⟨4, 1024, 8⟩).IsEmpty = true ∧
    (Buffer.ToBeEnough ⟨4, 1024, 8⟩ (Buffer.init ⟨4, 1024, 8⟩) 20).buffer_.length = 12 ∧
    (Buffer.init ⟨4, 1024, 8⟩).PushChecked ⟨4, 1024, 8⟩ (List.replicate 20 7) = none ∧
    (Buffer.init ⟨0, 1024, 8⟩).IsEmpty = true ∧
    (Buffer.init ⟨0, 1024, 8⟩).PushChecked ⟨0, 1024, 8⟩ [7] = none ∧
    ((((Buffer.init ⟨4, 1024, 8⟩).PushChecked ⟨4, 1024, 8⟩ [7, 8, 9]).bind
        fun b1 => b1.MoveReadPos 3).map
      fun b2 => (b2.IsEmpty, b2.Reset.read_pos_, b2.Reset.write_pos_,
        decide (b2.Reset.buffer_ = b2.buffer_)))
      = some (true, 0, 0, true) := by
  decide

/-- C17, the code with nothing pushed and no stop requested: the guard of the
wait is `IsEmpty() && stop_`, under which the wait predicate already holds, so
the thread never waits in any state.  On a freshly constructed worker, producer
side empty and `stop_` false, its first step swaps the buffers and its second
hands the callback an empty range. -/
theorem AsyncWorker_loop_never_waits (conf : JsonData) (t : AsyncType) :
    (∀ w : AsyncWorker, w.loopWaits = false) ∧
    (AsyncWorker.init conf t).buffer_productor_.IsEmpty = true ∧
    (AsyncWorker.init conf t).stop_ = false ∧
    ((AsyncWorker.init conf t).ThreadEntry.map fun w => w.pc) = some LoopPc.atCallback ∧
    ((AsyncWorker.run conf (AsyncWorker.init conf t)
        [AsyncWorker.Event.loop, AsyncWorker.Event.loop]).map fun w => (w.pc, w.flushed))
      = some (LoopPc.atReset, [[]]) := by
  refine ⟨?_, rfl, rfl, ?_, ?_⟩
  · intro w
    unfold AsyncWorker.loopWaits
    cases w.buffer_productor_.IsEmpty <;> cases w.stop_ <;> rfl
  · simp [AsyncWorker.ThreadEntry, AsyncWorker.loopWaits, AsyncWorker.init]
  · simp [AsyncWorker.run, AsyncWorker.step, AsyncWorker.ThreadEntry, AsyncWorker.loopWaits,
      AsyncWorker.init, Buffer.Swap, Buffer.init, Buffer.readable, Buffer.ReadableSize]

/-- C18, the code at a failing input: a 20-byte `Push` into a fresh 4-byte
buffer, below the threshold.  The writable length 4 is insufficient and the
growth step leaves a capacity of 12, `2 * size + size`, where the claim has
2 * 4 + 20 = 28; the 12 bytes do not hold the record. -/
theorem Buffer_ToBeEnough_triples_capacity :
    (Buffer.init ⟨4, 1024, 8⟩).WriteableSize < 20 ∧
    (Buffer.init ⟨4, 1024, 8⟩).buffer_.length = 4 ∧
    (Buffer.ToBeEnough ⟨4, 1024, 8⟩ (Buffer.init ⟨4, 1024, 8⟩) 20).buffer_.length = 12 ∧
    (Buffer.ToBeEnough ⟨4, 1024, 8⟩ (Buffer.init ⟨4, 1024, 8⟩) 20).buffer_.length
      ≠ 2 * (Buffer.init ⟨4, 1024, 8⟩).buffer_.length + 20 ∧
    Buffer.pushInBounds ⟨4, 1024, 8⟩ (Buffer.init ⟨4, 1024, 8⟩) 20 = false := by
  decide

/-- C19: `p.Swap(c)` with `c` empty.  Afterwards `c` has the readable range `p`
had, `p` is empty, each buffer has the storage (hence the capacity) and both
cursors the other had, and a second swap gives back both buffers. -/
theorem Buffer_Swap_exchanges (p c : Buffer) (hc : c.IsEmpty = true) :
    (p.Swap c).2.readable = p.readable ∧ (p.Swap c).1.IsEmpty = true ∧
    (p.Swap c).1.buffer_ = c.buffer_ ∧ (p.Swap c).1.read_pos_ = c.read_pos_ ∧
    (p.Swap c).1.write_pos_ = c.write_pos_ ∧
    (p.Swap c).2.buffer_ = p.buffer_ ∧ (p.Swap c).2.read_pos_ = p.read_pos_ ∧
    (p.Swap c).2.write_pos_ = p.write_pos_ ∧
    (p.Swap c).1.buffer_.length = c.buffer_.length ∧
    (p.Swap c).2.buffer_.length = p.buffer_.length ∧
    (p.Swap c).1.Swap (p.Swap c).2 = (p, c) :=
  ⟨rfl, hc, rfl, rfl, rfl, rfl, rfl, rfl, rfl, rfl, rfl⟩

/-- Witness of C19: a producer holding two unread bytes and a reset consumer. -/
theorem Buffer_Swap_exchanges_witness :
    (Buffer.mk [0, 0, 0, 0] 0 0).IsEmpty = true ∧
    ((Buffer.mk [1, 2, 3, 0] 3 1).Swap (Buffer.mk [0, 0, 0, 0] 0 0)).2.readable = [2, 3] ∧
    ((Buffer.mk [1, 2, 3, 0] 3 1).Swap (Buffer.mk [0, 0, 0, 0] 0 0)).1.IsEmpty = true :=
  ⟨by decide,
    (Buffer_Swap_exchanges (Buffer.mk [1, 2, 3, 0] 3 1) (Buffer.mk [0, 0, 0, 0] 0 0)
      (by decide)).1.trans (by decide),
    (Buffer_Swap_exchanges (Buffer.mk [1, 2, 3, 0] 3 1) (Buffer.mk [0, 0, 0, 0] 0 0)
      (by decide)).2.1⟩

end mylog
